import Mathlib

/-!
# DVDMath: disc timing model

A shallow embedding of `Source/Core/Core/HW/DVD/DVDMath.cpp`.

* `u64` values are natural numbers; every `u64` operation of the source that could
  leave the 64-bit range is written with an explicit `% U64_SIZE`.
* `double` values are read as exact real numbers (`ℝ`): `std::sqrt` is `Real.sqrt`,
  `fabs` is the absolute value, and the arithmetic operators are the field operations.
  The integer part of the code is kept computable; only the real-valued part is not.
* The bounds on the seek time depend on the last bits of the result. For them the position
  and the seek time have a second embedding, `CalculatePhysicalDiscPositionF64` and
  `CalculateSeekTimeF64`, in which every `double` operation is rounded to binary64.
-/

namespace DVDMath

/-! ## Machine integers -/

/-- Number of values of an unsigned 64-bit integer. -/
def U64_SIZE : Nat := 2 ^ 64

/-- Unsigned 64-bit addition. -/
def u64Add (a b : Nat) : Nat := (a + b) % U64_SIZE

/-- Unsigned 64-bit multiplication. -/
def u64Mul (a b : Nat) : Nat := (a * b) % U64_SIZE

/-- Unsigned 64-bit subtraction (wraps around below zero). -/
def u64Sub (a b : Nat) : Nat := (a % U64_SIZE + (U64_SIZE - b % U64_SIZE)) % U64_SIZE

/-! ## Constants -/

/-- The size of the first Wii disc layer in bytes (2294912 sectors, 2048 bytes per sector). -/
def WII_DISC_LAYER_SIZE : Nat := 0x118240000

/-- Inner radius, 24 mm. -/
noncomputable def DVD_INNER_RADIUS : ℝ := 0.024

/-- Outer radius of a Wii disc, 58 mm. -/
noncomputable def WII_DVD_OUTER_RADIUS : ℝ := 0.058

/-- Outer radius of a GC disc, 38 mm. -/
noncomputable def GC_DVD_OUTER_RADIUS : ℝ := 0.038

/-- Read speed at the inner radius of a GC disc, bytes/s. -/
noncomputable def GC_DISC_INNER_READ_SPEED : ℝ := 1024 * 1024 * 2.1

/-- Read speed at the outer radius of a GC disc, bytes/s. -/
noncomputable def GC_DISC_OUTER_READ_SPEED : ℝ := 1024 * 1024 * 3.325

/-- Read speed at the inner radius of a Wii disc, bytes/s. -/
noncomputable def WII_DISC_INNER_READ_SPEED : ℝ := 1024 * 1024 * 3.48

/-- Read speed at the outer radius of a Wii disc, bytes/s. -/
noncomputable def WII_DISC_OUTER_READ_SPEED : ℝ := 1024 * 1024 * 8.41

/-- Longest distance of a short seek, 1 mm. -/
noncomputable def SHORT_SEEK_MAX_DISTANCE : ℝ := 0.001

/-- Fixed cost of a short seek, seconds. -/
noncomputable def SHORT_SEEK_CONSTANT : ℝ := 0.045

/-- Inverse head velocity of a short seek, s/m. -/
noncomputable def SHORT_SEEK_VELOCITY_INVERSE : ℝ := 50

/-- Fixed cost of a long seek, seconds. -/
noncomputable def LONG_SEEK_CONSTANT : ℝ := 0.085

/-- Inverse head velocity of a long seek, s/m. -/
noncomputable def LONG_SEEK_VELOCITY_INVERSE : ℝ := 4.5

/-! ## Operations -/

/-- The integer part of `CalculatePhysicalDiscPosition` (the statements on `offset` before
the `return`): reduction modulo twice the layer size, then the fold of the second layer. -/
def foldedOffset (offset : Nat) : Nat :=
  let offset := offset % u64Mul WII_DISC_LAYER_SIZE 2
  if offset > WII_DISC_LAYER_SIZE then
    u64Sub (u64Mul WII_DISC_LAYER_SIZE 2) offset
  else
    offset

/-- The radius, in metres, at which the byte `offset` lies on the disc. -/
noncomputable def CalculatePhysicalDiscPosition (offset : Nat) : ℝ :=
  Real.sqrt
    ((foldedOffset offset : ℝ) / (WII_DISC_LAYER_SIZE : ℝ) *
      (WII_DVD_OUTER_RADIUS * WII_DVD_OUTER_RADIUS - DVD_INNER_RADIUS * DVD_INNER_RADIUS) +
      DVD_INNER_RADIUS * DVD_INNER_RADIUS)

/-- The time in seconds to move the read head from one offset to another. -/
noncomputable def CalculateSeekTime (offset_from offset_to : Nat) : ℝ :=
  let position_from := CalculatePhysicalDiscPosition offset_from
  let position_to := CalculatePhysicalDiscPosition offset_to
  let distance := |position_from - position_to|
  if distance < SHORT_SEEK_MAX_DISTANCE then
    distance * SHORT_SEEK_VELOCITY_INVERSE + SHORT_SEEK_CONSTANT
  else
    distance * LONG_SEEK_VELOCITY_INVERSE + LONG_SEEK_CONSTANT

/-- The position sampled by `CalculateRawDiscReadTime`: the local `physical_offset`. -/
noncomputable def readPhysicalOffset (offset length : Nat) : ℝ :=
  CalculatePhysicalDiscPosition (u64Add offset (length / 2))

/-- The read speed interpolated by `CalculateRawDiscReadTime`: the local `speed`. -/
noncomputable def readSpeed (offset length : Nat) (wii_disc : Bool) : ℝ :=
  let physical_offset := readPhysicalOffset offset length
  if wii_disc then
    (physical_offset - DVD_INNER_RADIUS) / (WII_DVD_OUTER_RADIUS - DVD_INNER_RADIUS) *
      (WII_DISC_OUTER_READ_SPEED - WII_DISC_INNER_READ_SPEED) +
      WII_DISC_INNER_READ_SPEED
  else
    (physical_offset - DVD_INNER_RADIUS) / (GC_DVD_OUTER_RADIUS - DVD_INNER_RADIUS) *
      (GC_DISC_OUTER_READ_SPEED - GC_DISC_INNER_READ_SPEED) +
      GC_DISC_INNER_READ_SPEED

/-- The time in seconds it takes to read `length` bytes at `offset`, seek time apart. -/
noncomputable def CalculateRawDiscReadTime (offset length : Nat) (wii_disc : Bool) : ℝ :=
  (length : ℝ) / readSpeed offset length wii_disc

/-! ## IEEE binary64 arithmetic

The second embedding of the position and of the seek time rounds every `double` operation to
binary64, round to nearest with ties to even, as the operations of the source do. It is used
where a statement depends on the last bits of the result. The exponent range is not bounded:
no value computed by the operations below comes near either end of the binary64 range. -/

/-- Round a real to the nearest integer, a tie to the even neighbour. -/
noncomputable def roundTiesEven (y : ℝ) : ℤ :=
  if y - ⌊y⌋ < 1 / 2 then ⌊y⌋
  else if 1 / 2 < y - ⌊y⌋ then ⌊y⌋ + 1
  else if ⌊y⌋ % 2 = 0 then ⌊y⌋
  else ⌊y⌋ + 1

/-- Round a positive real to 53 significant bits: with `e` the binary exponent of `x`, the
result is the multiple of `2 ^ (e - 52)` nearest to `x`. -/
noncomputable def f64RoundPos (x : ℝ) : ℝ :=
  (roundTiesEven (x / 2 ^ (Int.log 2 x - 52)) : ℝ) * 2 ^ (Int.log 2 x - 52)

/-- Round a real to binary64; the format is sign and magnitude. -/
noncomputable def f64Round (x : ℝ) : ℝ :=
  if 0 < x then f64RoundPos x
  else if x < 0 then -f64RoundPos (-x)
  else 0

/-- Addition of two `double` values. -/
noncomputable def f64Add (a b : ℝ) : ℝ := f64Round (a + b)

/-- Subtraction of two `double` values. -/
noncomputable def f64Sub (a b : ℝ) : ℝ := f64Round (a - b)

/-- Multiplication of two `double` values. -/
noncomputable def f64Mul (a b : ℝ) : ℝ := f64Round (a * b)

/-- Division of two `double` values. -/
noncomputable def f64Div (a b : ℝ) : ℝ := f64Round (a / b)

/-- The correctly rounded square root, `std::sqrt` on a `double`. -/
noncomputable def f64Sqrt (a : ℝ) : ℝ := f64Round (Real.sqrt a)

/-- Conversion of a `u64` to `double`. -/
noncomputable def f64OfNat (n : Nat) : ℝ := f64Round (n : ℝ)

/-- `CalculatePhysicalDiscPosition` with every operation rounded to binary64; a decimal
constant of the source is the `double` nearest to it. -/
noncomputable def CalculatePhysicalDiscPositionF64 (offset : Nat) : ℝ :=
  f64Sqrt
    (f64Add
      (f64Mul
        (f64Div (f64OfNat (foldedOffset offset)) (f64OfNat WII_DISC_LAYER_SIZE))
        (f64Sub
          (f64Mul (f64Round WII_DVD_OUTER_RADIUS) (f64Round WII_DVD_OUTER_RADIUS))
          (f64Mul (f64Round DVD_INNER_RADIUS) (f64Round DVD_INNER_RADIUS))))
      (f64Mul (f64Round DVD_INNER_RADIUS) (f64Round DVD_INNER_RADIUS)))

/-- `CalculateSeekTime` with every operation rounded to binary64. -/
noncomputable def CalculateSeekTimeF64 (offset_from offset_to : Nat) : ℝ :=
  let position_from := CalculatePhysicalDiscPositionF64 offset_from
  let position_to := CalculatePhysicalDiscPositionF64 offset_to
  let distance := |f64Sub position_from position_to|
  if distance < f64Round SHORT_SEEK_MAX_DISTANCE then
    f64Add (f64Mul distance (f64Round SHORT_SEEK_VELOCITY_INVERSE))
      (f64Round SHORT_SEEK_CONSTANT)
  else
    f64Add (f64Mul distance (f64Round LONG_SEEK_VELOCITY_INVERSE))
      (f64Round LONG_SEEK_CONSTANT)

/-! ## The integer fold -/

theorem u64Mul_layer_two : u64Mul WII_DISC_LAYER_SIZE 2 = 9399959552 := by
  decide

theorem foldedOffset_eq (offset : Nat) :
    foldedOffset offset =
      if offset % 9399959552 > 4699979776 then 9399959552 - offset % 9399959552
      else offset % 9399959552 := by
  have hlt : offset % 9399959552 < 9399959552 := Nat.mod_lt _ (by norm_num)
  simp only [foldedOffset, u64Mul_layer_two]
  have hL : WII_DISC_LAYER_SIZE = 4699979776 := by decide
  rw [hL]
  split
  · simp only [u64Sub, U64_SIZE]
    omega
  · rfl

theorem foldedOffset_mod (offset : Nat) :
    foldedOffset (offset % (2 * WII_DISC_LAYER_SIZE)) = foldedOffset offset := by
  have hL : 2 * WII_DISC_LAYER_SIZE = 9399959552 := by decide
  rw [hL, foldedOffset_eq, foldedOffset_eq, Nat.mod_mod]

theorem foldedOffset_of_le {offset : Nat} (h : offset ≤ WII_DISC_LAYER_SIZE) :
    foldedOffset offset = offset := by
  have hL : WII_DISC_LAYER_SIZE = 4699979776 := by decide
  rw [hL] at h
  rw [foldedOffset_eq]
  split <;> omega

theorem foldedOffset_mirror {offset : Nat} (h : offset ≤ WII_DISC_LAYER_SIZE) :
    foldedOffset (2 * WII_DISC_LAYER_SIZE - offset) = offset := by
  have hL : WII_DISC_LAYER_SIZE = 4699979776 := by decide
  rw [hL] at h ⊢
  rw [foldedOffset_eq]
  split <;> omega

theorem foldedOffset_le (offset : Nat) : foldedOffset offset ≤ WII_DISC_LAYER_SIZE := by
  have hL : WII_DISC_LAYER_SIZE = 4699979776 := by decide
  rw [hL, foldedOffset_eq]
  split <;> omega

/-! ## The radius formula -/

theorem layer_size_pos : (0 : ℝ) < (WII_DISC_LAYER_SIZE : ℝ) := by
  norm_num [WII_DISC_LAYER_SIZE]

theorem radius_sq_diff_pos :
    0 < WII_DVD_OUTER_RADIUS * WII_DVD_OUTER_RADIUS - DVD_INNER_RADIUS * DVD_INNER_RADIUS := by
  norm_num [WII_DVD_OUTER_RADIUS, DVD_INNER_RADIUS]

theorem inner_radius_sq_pos : 0 < DVD_INNER_RADIUS * DVD_INNER_RADIUS := by
  norm_num [DVD_INNER_RADIUS]

/-- The argument of the square root is never negative. -/
theorem radicand_nonneg (n : Nat) :
    0 ≤ (n : ℝ) / (WII_DISC_LAYER_SIZE : ℝ) *
      (WII_DVD_OUTER_RADIUS * WII_DVD_OUTER_RADIUS - DVD_INNER_RADIUS * DVD_INNER_RADIUS) +
      DVD_INNER_RADIUS * DVD_INNER_RADIUS := by
  have h1 : 0 ≤ (n : ℝ) / (WII_DISC_LAYER_SIZE : ℝ) :=
    div_nonneg (Nat.cast_nonneg n) layer_size_pos.le
  have h2 := mul_nonneg h1 radius_sq_diff_pos.le
  linarith [inner_radius_sq_pos]

theorem position_congr {a b : Nat} (h : foldedOffset a = foldedOffset b) :
    CalculatePhysicalDiscPosition a = CalculatePhysicalDiscPosition b := by
  unfold CalculatePhysicalDiscPosition
  rw [h]

theorem position_le_of_folded_le {a b : Nat} (h : foldedOffset a ≤ foldedOffset b) :
    CalculatePhysicalDiscPosition a ≤ CalculatePhysicalDiscPosition b := by
  unfold CalculatePhysicalDiscPosition
  apply Real.sqrt_le_sqrt
  have hc : (foldedOffset a : ℝ) ≤ (foldedOffset b : ℝ) := by exact_mod_cast h
  have hd := div_le_div_of_nonneg_right hc layer_size_pos.le
  have hm := mul_le_mul_of_nonneg_right hd radius_sq_diff_pos.le
  linarith

theorem position_lt_of_folded_lt {a b : Nat} (h : foldedOffset a < foldedOffset b) :
    CalculatePhysicalDiscPosition a < CalculatePhysicalDiscPosition b := by
  unfold CalculatePhysicalDiscPosition
  apply Real.sqrt_lt_sqrt (radicand_nonneg _)
  have hc : (foldedOffset a : ℝ) < (foldedOffset b : ℝ) := by exact_mod_cast h
  have hd := div_lt_div_of_pos_right hc layer_size_pos
  have hm := mul_lt_mul_of_pos_right hd radius_sq_diff_pos
  linarith

theorem position_zero : CalculatePhysicalDiscPosition 0 = DVD_INNER_RADIUS := by
  have hf : foldedOffset 0 = 0 := by decide
  unfold CalculatePhysicalDiscPosition
  rw [hf]
  simp only [Nat.cast_zero, zero_div, zero_mul, zero_add]
  exact Real.sqrt_mul_self (by norm_num [DVD_INNER_RADIUS])

theorem position_layer :
    CalculatePhysicalDiscPosition WII_DISC_LAYER_SIZE = WII_DVD_OUTER_RADIUS := by
  have hf : foldedOffset WII_DISC_LAYER_SIZE = WII_DISC_LAYER_SIZE := by decide
  unfold CalculatePhysicalDiscPosition
  rw [hf, div_self layer_size_pos.ne', one_mul, sub_add_cancel]
  exact Real.sqrt_mul_self (by norm_num [WII_DVD_OUTER_RADIUS])

theorem position_ge_inner (offset : Nat) :
    DVD_INNER_RADIUS ≤ CalculatePhysicalDiscPosition offset := by
  rw [← position_zero]
  apply position_le_of_folded_le
  have hf : foldedOffset 0 = 0 := by decide
  rw [hf]
  exact Nat.zero_le _

theorem position_le_outer (offset : Nat) :
    CalculatePhysicalDiscPosition offset ≤ WII_DVD_OUTER_RADIUS := by
  rw [← position_layer]
  apply position_le_of_folded_le
  have hf : foldedOffset WII_DISC_LAYER_SIZE = WII_DISC_LAYER_SIZE := by decide
  rw [hf]
  exact foldedOffset_le offset

/-! ## Physical position: contract -/

/-- C1 (wrap invariant): the physical position of any offset equals the physical position of
that offset reduced modulo twice the layer size. -/
theorem physical_position_wrap (offset : Nat) :
    CalculatePhysicalDiscPosition offset =
      CalculatePhysicalDiscPosition (offset % (2 * WII_DISC_LAYER_SIZE)) :=
  position_congr (foldedOffset_mod offset).symm

/-- C2 (mirror invariant): for an offset `o` of the first layer, end points included, the
physical positions of `o` and of `2 * L - o` are equal. -/
theorem physical_position_mirror (o : Nat) (h : o ≤ WII_DISC_LAYER_SIZE) :
    CalculatePhysicalDiscPosition o =
      CalculatePhysicalDiscPosition (2 * WII_DISC_LAYER_SIZE - o) :=
  position_congr ((foldedOffset_of_le h).trans (foldedOffset_mirror h).symm)

theorem physical_position_mirror_witness :
    CalculatePhysicalDiscPosition 0 = CalculatePhysicalDiscPosition (2 * WII_DISC_LAYER_SIZE - 0) ∧
    CalculatePhysicalDiscPosition 2048 =
      CalculatePhysicalDiscPosition (2 * WII_DISC_LAYER_SIZE - 2048) ∧
    CalculatePhysicalDiscPosition WII_DISC_LAYER_SIZE =
      CalculatePhysicalDiscPosition (2 * WII_DISC_LAYER_SIZE - WII_DISC_LAYER_SIZE) :=
  ⟨physical_position_mirror 0 (by decide), physical_position_mirror 2048 (by decide),
    physical_position_mirror WII_DISC_LAYER_SIZE (by decide)⟩

/-- C3 (boundary values): offset 0 lies at the inner radius 0.024 and offset `L` lies at the
outer radius 0.058 of a Wii disc, exactly. -/
theorem physical_position_boundary :
    CalculatePhysicalDiscPosition 0 = 0.024 ∧
    CalculatePhysicalDiscPosition 0x118240000 = 0.058 := by
  refine ⟨?_, ?_⟩
  · rw [position_zero, DVD_INNER_RADIUS]
  · have h := position_layer
    rw [WII_DVD_OUTER_RADIUS] at h
    exact h

/-- C4 (monotonicity on the first layer): for offsets `o1 < o2` of the first layer, the
physical position of `o1` is at most that of `o2`. -/
theorem physical_position_monotone (o1 o2 : Nat) (h12 : o1 < o2)
    (h2 : o2 ≤ WII_DISC_LAYER_SIZE) :
    CalculatePhysicalDiscPosition o1 ≤ CalculatePhysicalDiscPosition o2 := by
  apply position_le_of_folded_le
  rw [foldedOffset_of_le h2, foldedOffset_of_le (le_trans h12.le h2)]
  exact h12.le

theorem physical_position_monotone_witness :
    CalculatePhysicalDiscPosition 2048 ≤ CalculatePhysicalDiscPosition WII_DISC_LAYER_SIZE :=
  physical_position_monotone 2048 WII_DISC_LAYER_SIZE (by decide) (by decide)

/-- C5 (range): every physical position lies between the inner radius 0.024 and the outer
radius 0.058 of a Wii disc. -/
theorem physical_position_range (offset : Nat) :
    0.024 ≤ CalculatePhysicalDiscPosition offset ∧
    CalculatePhysicalDiscPosition offset ≤ 0.058 := by
  have h1 := position_ge_inner offset
  have h2 := position_le_outer offset
  rw [DVD_INNER_RADIUS] at h1
  rw [WII_DVD_OUTER_RADIUS] at h2
  exact ⟨h1, h2⟩

/-! ## Seek time -/

/-- C6 (seek symmetry): the seek time from `a` to `b` equals the seek time from `b` to `a`. -/
theorem seek_time_symmetric (a b : Nat) : CalculateSeekTime a b = CalculateSeekTime b a := by
  simp only [CalculateSeekTime]
  rw [abs_sub_comm (CalculatePhysicalDiscPosition a) (CalculatePhysicalDiscPosition b)]

/-- C7 (seek zero): seeking from an offset to itself takes the short-seek constant 0.045. -/
theorem seek_time_self (a : Nat) : CalculateSeekTime a a = 0.045 := by
  simp only [CalculateSeekTime, sub_self, abs_zero, zero_mul, zero_add]
  rw [if_pos (by norm_num [SHORT_SEEK_MAX_DISTANCE]), SHORT_SEEK_CONSTANT]

/-- C8 (two-regime formula): with `d` the distance between the two physical positions, the
seek time is `d * 50 + 0.045` when `d < 0.001` and `d * 4.5 + 0.085` when `0.001 ≤ d`. -/
theorem seek_time_two_regimes (a b : Nat) :
    (|CalculatePhysicalDiscPosition a - CalculatePhysicalDiscPosition b| < 0.001 →
      CalculateSeekTime a b =
        |CalculatePhysicalDiscPosition a - CalculatePhysicalDiscPosition b| * 50 + 0.045) ∧
    (0.001 ≤ |CalculatePhysicalDiscPosition a - CalculatePhysicalDiscPosition b| →
      CalculateSeekTime a b =
        |CalculatePhysicalDiscPosition a - CalculatePhysicalDiscPosition b| * 4.5 + 0.085) := by
  constructor
  · intro h
    simp only [CalculateSeekTime, SHORT_SEEK_MAX_DISTANCE, SHORT_SEEK_VELOCITY_INVERSE,
      SHORT_SEEK_CONSTANT]
    rw [if_pos h]
  · intro h
    simp only [CalculateSeekTime, SHORT_SEEK_MAX_DISTANCE, LONG_SEEK_VELOCITY_INVERSE,
      LONG_SEEK_CONSTANT]
    rw [if_neg (not_lt.mpr h)]

theorem seek_time_two_regimes_witness :
    CalculateSeekTime 0 0 =
      |CalculatePhysicalDiscPosition 0 - CalculatePhysicalDiscPosition 0| * 50 + 0.045 ∧
    CalculateSeekTime 0 WII_DISC_LAYER_SIZE =
      |CalculatePhysicalDiscPosition 0 - CalculatePhysicalDiscPosition WII_DISC_LAYER_SIZE| * 4.5
        + 0.085 :=
  ⟨(seek_time_two_regimes 0 0).1 (by rw [sub_self, abs_zero]; norm_num),
    (seek_time_two_regimes 0 WII_DISC_LAYER_SIZE).2 (by
      rw [position_zero, position_layer, DVD_INNER_RADIUS, WII_DVD_OUTER_RADIUS, abs_sub_comm,
        abs_of_nonneg (by norm_num)]
      norm_num)⟩

/-! ## Read time -/

/-- The interpolated speed is at least the inner speed of the disc kind. -/
theorem readSpeed_ge_inner (offset length : Nat) (wii_disc : Bool) :
    (if wii_disc then WII_DISC_INNER_READ_SPEED else GC_DISC_INNER_READ_SPEED) ≤
      readSpeed offset length wii_disc := by
  have hp : 0 ≤ readPhysicalOffset offset length - DVD_INNER_RADIUS :=
    sub_nonneg.mpr (position_ge_inner _)
  cases wii_disc
  · have hr : 0 < GC_DVD_OUTER_RADIUS - DVD_INNER_RADIUS := by
      norm_num [GC_DVD_OUTER_RADIUS, DVD_INNER_RADIUS]
    have hs : 0 ≤ GC_DISC_OUTER_READ_SPEED - GC_DISC_INNER_READ_SPEED := by
      norm_num [GC_DISC_OUTER_READ_SPEED, GC_DISC_INNER_READ_SPEED]
    have hm := mul_nonneg (div_nonneg hp hr.le) hs
    simp only [readSpeed, Bool.false_eq_true, if_false]
    linarith
  · have hr : 0 < WII_DVD_OUTER_RADIUS - DVD_INNER_RADIUS := by
      norm_num [WII_DVD_OUTER_RADIUS, DVD_INNER_RADIUS]
    have hs : 0 ≤ WII_DISC_OUTER_READ_SPEED - WII_DISC_INNER_READ_SPEED := by
      norm_num [WII_DISC_OUTER_READ_SPEED, WII_DISC_INNER_READ_SPEED]
    have hm := mul_nonneg (div_nonneg hp hr.le) hs
    simp only [readSpeed, if_true]
    linarith

theorem readSpeed_pos (offset length : Nat) (wii_disc : Bool) :
    0 < readSpeed offset length wii_disc := by
  have h := readSpeed_ge_inner offset length wii_disc
  cases wii_disc
  · have hi : 0 < GC_DISC_INNER_READ_SPEED := by norm_num [GC_DISC_INNER_READ_SPEED]
    simp only [Bool.false_eq_true, if_false] at h
    linarith
  · have hi : 0 < WII_DISC_INNER_READ_SPEED := by norm_num [WII_DISC_INNER_READ_SPEED]
    simp only [if_true] at h
    linarith

theorem readSpeed_wii_at_zero : readSpeed 0 0 true = WII_DISC_INNER_READ_SPEED := by
  have hm : u64Add 0 (0 / 2) = 0 := by decide
  simp only [readSpeed, readPhysicalOffset, hm, position_zero, sub_self, zero_div, zero_mul,
    zero_add, if_true]

/-- C9 (zero-length read): for every offset and both disc kinds the divisor `speed` is
positive and reading zero bytes takes zero seconds; at offset 0 of a Wii disc the divisor is
`1024 * 1024 * 3.48`. -/
theorem read_time_zero_length (offset : Nat) (wii_disc : Bool) :
    0 < readSpeed offset 0 wii_disc ∧ CalculateRawDiscReadTime offset 0 wii_disc = 0 ∧
    readSpeed 0 0 true = 1024 * 1024 * 3.48 := by
  refine ⟨readSpeed_pos offset 0 wii_disc, ?_, ?_⟩
  · simp only [CalculateRawDiscReadTime, Nat.cast_zero, zero_div]
  · rw [readSpeed_wii_at_zero, WII_DISC_INNER_READ_SPEED]

theorem foldedOffset_congr_mod {a b : Nat}
    (h : a % (2 * WII_DISC_LAYER_SIZE) = b % (2 * WII_DISC_LAYER_SIZE)) :
    foldedOffset a = foldedOffset b := by
  rw [← foldedOffset_mod a, ← foldedOffset_mod b, h]

theorem u64Add_of_lt {a b : Nat} (h : a + b < U64_SIZE) : u64Add a b = a + b :=
  Nat.mod_eq_of_lt h

/-- C10, counterexample: at offset `2 ^ 64 - 1` and length 2 the 64-bit midpoint wraps around
to 0, and the read time differs from the read time at the offset reduced modulo `2 * L`. -/
theorem read_time_mod_counterexample :
    2 ^ 64 - 1 < U64_SIZE ∧
    CalculateRawDiscReadTime (2 ^ 64 - 1) 2 true ≠
      CalculateRawDiscReadTime ((2 ^ 64 - 1) % (2 * WII_DISC_LAYER_SIZE)) 2 true := by
  refine ⟨by decide, ?_⟩
  have hm1 : u64Add (2 ^ 64 - 1) (2 / 2) = 0 := by decide
  have hm2 : u64Add ((2 ^ 64 - 1) % (2 * WII_DISC_LAYER_SIZE)) (2 / 2) = 5598347264 := by decide
  have hf : foldedOffset 0 < foldedOffset 5598347264 := by decide
  have hp := position_lt_of_folded_lt hf
  rw [position_zero] at hp
  have hr : 0 < WII_DVD_OUTER_RADIUS - DVD_INNER_RADIUS := by
    norm_num [WII_DVD_OUTER_RADIUS, DVD_INNER_RADIUS]
  have hs : 0 < WII_DISC_OUTER_READ_SPEED - WII_DISC_INNER_READ_SPEED := by
    norm_num [WII_DISC_OUTER_READ_SPEED, WII_DISC_INNER_READ_SPEED]
  have hi : 0 < WII_DISC_INNER_READ_SPEED := by norm_num [WII_DISC_INNER_READ_SPEED]
  have hgain := mul_pos (div_pos (sub_pos.mpr hp) hr) hs
  have hlt : (2 : ℝ) / ((CalculatePhysicalDiscPosition 5598347264 - DVD_INNER_RADIUS) /
      (WII_DVD_OUTER_RADIUS - DVD_INNER_RADIUS) *
      (WII_DISC_OUTER_READ_SPEED - WII_DISC_INNER_READ_SPEED) + WII_DISC_INNER_READ_SPEED) <
      2 / WII_DISC_INNER_READ_SPEED :=
    div_lt_div_of_pos_left (by norm_num) hi (by linarith)
  simp only [CalculateRawDiscReadTime, readSpeed, readPhysicalOffset, hm1, hm2, position_zero,
    sub_self, zero_div, zero_mul, zero_add, if_true, Nat.cast_ofNat]
  exact hlt.ne'

/-- C10, amended: when the midpoint `offset + length / 2` does not overflow 64 bits, the read
time at `offset` equals the read time at `offset` reduced modulo `2 * L`. -/
theorem read_time_mod (offset length : Nat) (wii_disc : Bool)
    (h : offset + length / 2 < U64_SIZE) :
    CalculateRawDiscReadTime offset length wii_disc =
      CalculateRawDiscReadTime (offset % (2 * WII_DISC_LAYER_SIZE)) length wii_disc := by
  have hle : offset % (2 * WII_DISC_LAYER_SIZE) + length / 2 < U64_SIZE :=
    lt_of_le_of_lt (Nat.add_le_add_right (Nat.mod_le _ _) _) h
  have hp : readPhysicalOffset offset length =
      readPhysicalOffset (offset % (2 * WII_DISC_LAYER_SIZE)) length := by
    unfold readPhysicalOffset
    rw [u64Add_of_lt h, u64Add_of_lt hle]
    exact position_congr (foldedOffset_congr_mod (Nat.mod_add_mod _ _ _).symm)
  simp only [CalculateRawDiscReadTime, readSpeed, hp]

theorem read_time_mod_witness :
    CalculateRawDiscReadTime (3 * WII_DISC_LAYER_SIZE + 5) 4096 true =
      CalculateRawDiscReadTime ((3 * WII_DISC_LAYER_SIZE + 5) % (2 * WII_DISC_LAYER_SIZE))
        4096 true :=
  read_time_mod (3 * WII_DISC_LAYER_SIZE + 5) 4096 true (by decide)

/-! ## Read time: divisor and calibration range -/

theorem readPhysicalOffset_ge_inner (offset length : Nat) :
    DVD_INNER_RADIUS ≤ readPhysicalOffset offset length :=
  position_ge_inner _

theorem readPhysicalOffset_le_outer (offset length : Nat) :
    readPhysicalOffset offset length ≤ WII_DVD_OUTER_RADIUS :=
  position_le_outer _

/-- The Wii speed as a linear function of the sampled position. -/
theorem readSpeed_wii_eq (offset length : Nat) :
    readSpeed offset length true =
      (readPhysicalOffset offset length - 0.024) * 152043520 + 1024 * 1024 * 3.48 := by
  simp only [readSpeed, if_true, DVD_INNER_RADIUS, WII_DVD_OUTER_RADIUS,
    WII_DISC_OUTER_READ_SPEED, WII_DISC_INNER_READ_SPEED]
  ring

/-- The GC speed as a linear function of the sampled position. -/
theorem readSpeed_gc_eq (offset length : Nat) :
    readSpeed offset length false =
      (readPhysicalOffset offset length - 0.024) * 91750400 + 1024 * 1024 * 2.1 := by
  simp only [readSpeed, Bool.false_eq_true, if_false, DVD_INNER_RADIUS, GC_DVD_OUTER_RADIUS,
    GC_DISC_OUTER_READ_SPEED, GC_DISC_INNER_READ_SPEED]
  ring

theorem position_le_gc_outer_iff (o : Nat) :
    CalculatePhysicalDiscPosition o ≤ 0.038 ↔
      697 * foldedOffset o ≤ 217 * WII_DISC_LAYER_SIZE := by
  have hL : (WII_DISC_LAYER_SIZE : ℝ) = 4699979776 := by norm_num [WII_DISC_LAYER_SIZE]
  have hN : WII_DISC_LAYER_SIZE = 4699979776 := by decide
  unfold CalculatePhysicalDiscPosition
  rw [Real.sqrt_le_left (by norm_num), hL, hN]
  simp only [WII_DVD_OUTER_RADIUS, DVD_INNER_RADIUS]
  constructor
  · intro h
    have h2 : ((697 * foldedOffset o : ℕ) : ℝ) ≤ ((217 * 4699979776 : ℕ) : ℝ) := by
      push_cast
      linarith
    exact Nat.cast_le.mp h2
  · intro h
    have h2 : ((697 * foldedOffset o : ℕ) : ℝ) ≤ ((217 * 4699979776 : ℕ) : ℝ) :=
      Nat.cast_le.mpr h
    push_cast at h2
    linarith

/-- C11 (no division by zero): the speed that `CalculateRawDiscReadTime` divides by is at
least the inner read speed of the disc kind, hence positive, and the read time is not
negative. -/
theorem read_time_divisor_positive (offset length : Nat) (wii_disc : Bool) :
    (if wii_disc then (1024 * 1024 * 3.48 : ℝ) else 1024 * 1024 * 2.1) ≤
      readSpeed offset length wii_disc ∧
    0 < readSpeed offset length wii_disc ∧
    0 ≤ CalculateRawDiscReadTime offset length wii_disc := by
  refine ⟨?_, readSpeed_pos offset length wii_disc, ?_⟩
  · have h := readSpeed_ge_inner offset length wii_disc
    rw [WII_DISC_INNER_READ_SPEED, GC_DISC_INNER_READ_SPEED] at h
    exact h
  · exact div_nonneg (Nat.cast_nonneg length) (readSpeed_pos offset length wii_disc).le

/-- C12, counterexample: a GC read sampled at offset `L` lies at radius 0.058, outside the GC
range that ends at 0.038, and its speed exceeds the GC outer read speed. -/
theorem read_position_gc_range_counterexample :
    ¬ (readPhysicalOffset WII_DISC_LAYER_SIZE 0 ≤ 0.038) ∧
    ¬ (readSpeed WII_DISC_LAYER_SIZE 0 false ≤ 1024 * 1024 * 3.325) := by
  have hm : u64Add WII_DISC_LAYER_SIZE (0 / 2) = WII_DISC_LAYER_SIZE := by decide
  have hp : readPhysicalOffset WII_DISC_LAYER_SIZE 0 = 0.058 := by
    rw [readPhysicalOffset, hm, position_layer, WII_DVD_OUTER_RADIUS]
  constructor
  · rw [hp]
    norm_num
  · rw [readSpeed_gc_eq, hp]
    norm_num

/-- C12, amended: the sampled position always lies in the Wii range `[0.024, 0.058]`, whatever
the disc kind. The Wii speed lies between the Wii calibration speeds. The GC speed is at least
the GC inner speed; the position is at most 0.038, and the GC speed at most the GC outer
speed, exactly when the folded midpoint `f` satisfies `697 * f ≤ 217 * L`. -/
theorem read_position_range (offset length : Nat) :
    (0.024 ≤ readPhysicalOffset offset length ∧ readPhysicalOffset offset length ≤ 0.058) ∧
    (1024 * 1024 * 3.48 ≤ readSpeed offset length true ∧
      readSpeed offset length true ≤ 1024 * 1024 * 8.41) ∧
    1024 * 1024 * 2.1 ≤ readSpeed offset length false ∧
    (readPhysicalOffset offset length ≤ 0.038 ↔
      697 * foldedOffset (u64Add offset (length / 2)) ≤ 217 * WII_DISC_LAYER_SIZE) ∧
    (readSpeed offset length false ≤ 1024 * 1024 * 3.325 ↔
      697 * foldedOffset (u64Add offset (length / 2)) ≤ 217 * WII_DISC_LAYER_SIZE) := by
  have h1 := readPhysicalOffset_ge_inner offset length
  have h2 := readPhysicalOffset_le_outer offset length
  rw [DVD_INNER_RADIUS] at h1
  rw [WII_DVD_OUTER_RADIUS] at h2
  have hiff : readPhysicalOffset offset length ≤ 0.038 ↔
      697 * foldedOffset (u64Add offset (length / 2)) ≤ 217 * WII_DISC_LAYER_SIZE :=
    position_le_gc_outer_iff _
  refine ⟨⟨h1, h2⟩, ⟨?_, ?_⟩, ?_, hiff, ?_⟩
  · rw [readSpeed_wii_eq]
    linarith
  · rw [readSpeed_wii_eq]
    linarith
  · rw [readSpeed_gc_eq]
    linarith
  · rw [← hiff, readSpeed_gc_eq]
    constructor <;> intro h <;> linarith

/-- C13 (media kind ordering): at every sampled position the Wii read speed exceeds the GC
read speed, so a read of positive length takes less time on a Wii disc than on a GC disc. -/
theorem read_speed_kind_ordering (offset length : Nat) :
    readSpeed offset length false < readSpeed offset length true ∧
    (0 < length →
      CalculateRawDiscReadTime offset length true <
        CalculateRawDiscReadTime offset length false) := by
  have h1 := readPhysicalOffset_ge_inner offset length
  rw [DVD_INNER_RADIUS] at h1
  have hlt : readSpeed offset length false < readSpeed offset length true := by
    rw [readSpeed_wii_eq, readSpeed_gc_eq]
    linarith
  refine ⟨hlt, fun hl => ?_⟩
  have hl2 : (0 : ℝ) < (length : ℝ) := by exact_mod_cast hl
  exact div_lt_div_of_pos_left hl2 (readSpeed_pos offset length false) hlt

theorem read_speed_kind_ordering_witness :
    readSpeed 2048 4096 false < readSpeed 2048 4096 true ∧
    CalculateRawDiscReadTime 2048 4096 true < CalculateRawDiscReadTime 2048 4096 false :=
  ⟨(read_speed_kind_ordering 2048 4096).1, (read_speed_kind_ordering 2048 4096).2 (by decide)⟩

/-! ## Seek time: the two regimes at the threshold -/

theorem seekTime_of_short {a b : Nat}
    (h : |CalculatePhysicalDiscPosition a - CalculatePhysicalDiscPosition b| < 0.001) :
    CalculateSeekTime a b =
      |CalculatePhysicalDiscPosition a - CalculatePhysicalDiscPosition b| * 50 + 0.045 := by
  simp only [CalculateSeekTime, SHORT_SEEK_MAX_DISTANCE, SHORT_SEEK_VELOCITY_INVERSE,
    SHORT_SEEK_CONSTANT]
  rw [if_pos h]

theorem seekTime_of_long {a b : Nat}
    (h : 0.001 ≤ |CalculatePhysicalDiscPosition a - CalculatePhysicalDiscPosition b|) :
    CalculateSeekTime a b =
      |CalculatePhysicalDiscPosition a - CalculatePhysicalDiscPosition b| * 4.5 + 0.085 := by
  simp only [CalculateSeekTime, SHORT_SEEK_MAX_DISTANCE, LONG_SEEK_VELOCITY_INVERSE,
    LONG_SEEK_CONSTANT]
  rw [if_neg (not_lt.mpr h)]

/-- Offset 82500000 lies just less than 1 mm outside the inner radius. -/
theorem position_below_threshold :
    0.024998 < CalculatePhysicalDiscPosition 82500000 ∧
    CalculatePhysicalDiscPosition 82500000 < 0.025 := by
  have hf : foldedOffset 82500000 = 82500000 := by decide
  unfold CalculatePhysicalDiscPosition
  rw [hf]
  simp only [WII_DISC_LAYER_SIZE, WII_DVD_OUTER_RADIUS, DVD_INNER_RADIUS]
  constructor
  · rw [Real.lt_sqrt (by norm_num)]
    norm_num
  · rw [Real.sqrt_lt' (by norm_num)]
    norm_num

/-- Offset 82700000 lies just more than 1 mm outside the inner radius. -/
theorem position_above_threshold :
    0.025 ≤ CalculatePhysicalDiscPosition 82700000 ∧
    CalculatePhysicalDiscPosition 82700000 < 0.025002 := by
  have hf : foldedOffset 82700000 = 82700000 := by decide
  unfold CalculatePhysicalDiscPosition
  rw [hf]
  simp only [WII_DISC_LAYER_SIZE, WII_DVD_OUTER_RADIUS, DVD_INNER_RADIUS]
  constructor
  · rw [Real.le_sqrt (by norm_num) (by norm_num)]
    norm_num
  · rw [Real.sqrt_lt' (by norm_num)]
    norm_num

/-- C14 (seek discontinuity): from offset 0, the seek to offset 82500000 covers less than 1 mm
and the seek to offset 82700000 covers at least 1 mm, yet the shorter seek takes longer: its
time lies just below 0.095, the value of the short formula at the threshold, while the longer
seek takes just over 0.0895, the value of the long formula at the threshold. -/
theorem seek_time_discontinuity :
    (∃ a b c : Nat,
      |CalculatePhysicalDiscPosition a - CalculatePhysicalDiscPosition b| < 0.001 ∧
      0.001 ≤ |CalculatePhysicalDiscPosition a - CalculatePhysicalDiscPosition c| ∧
      CalculateSeekTime a b > CalculateSeekTime a c ∧
      0.0949 < CalculateSeekTime a b ∧ CalculateSeekTime a b < 0.095 ∧
      0.0895 ≤ CalculateSeekTime a c ∧ CalculateSeekTime a c < 0.0896) ∧
    SHORT_SEEK_MAX_DISTANCE * SHORT_SEEK_VELOCITY_INVERSE + SHORT_SEEK_CONSTANT = 0.095 ∧
    SHORT_SEEK_MAX_DISTANCE * LONG_SEEK_VELOCITY_INVERSE + LONG_SEEK_CONSTANT = 0.0895 := by
  obtain ⟨hb1, hb2⟩ := position_below_threshold
  obtain ⟨hc1, hc2⟩ := position_above_threshold
  have hab : |CalculatePhysicalDiscPosition 0 - CalculatePhysicalDiscPosition 82500000| =
      CalculatePhysicalDiscPosition 82500000 - 0.024 := by
    rw [position_zero, DVD_INNER_RADIUS, abs_sub_comm, abs_of_nonneg (by linarith)]
  have hac : |CalculatePhysicalDiscPosition 0 - CalculatePhysicalDiscPosition 82700000| =
      CalculatePhysicalDiscPosition 82700000 - 0.024 := by
    rw [position_zero, DVD_INNER_RADIUS, abs_sub_comm, abs_of_nonneg (by linarith)]
  have hshort : |CalculatePhysicalDiscPosition 0 - CalculatePhysicalDiscPosition 82500000| <
      0.001 := by
    rw [hab]
    linarith
  have hlong : 0.001 ≤
      |CalculatePhysicalDiscPosition 0 - CalculatePhysicalDiscPosition 82700000| := by
    rw [hac]
    linarith
  have hsb := seekTime_of_short hshort
  have hsc := seekTime_of_long hlong
  rw [hab] at hsb
  rw [hac] at hsc
  refine ⟨⟨0, 82500000, 82700000, hshort, hlong, ?_, ?_, ?_, ?_, ?_⟩, ?_, ?_⟩
  · rw [hsb, hsc]
    linarith
  · rw [hsb]
    linarith
  · rw [hsb]
    linarith
  · rw [hsc]
    linarith
  · rw [hsc]
    linarith
  · norm_num [SHORT_SEEK_MAX_DISTANCE, SHORT_SEEK_VELOCITY_INVERSE, SHORT_SEEK_CONSTANT]
  · norm_num [SHORT_SEEK_MAX_DISTANCE, LONG_SEEK_VELOCITY_INVERSE, LONG_SEEK_CONSTANT]

/-! ## Read time: calibration endpoints -/

theorem position_of_mod_zero {m : Nat} (h : m % (2 * WII_DISC_LAYER_SIZE) = 0) :
    CalculatePhysicalDiscPosition m = DVD_INNER_RADIUS := by
  rw [← position_zero]
  exact position_congr (foldedOffset_congr_mod (by rw [h]; decide))

theorem position_of_mod_layer {m : Nat}
    (h : m % (2 * WII_DISC_LAYER_SIZE) = WII_DISC_LAYER_SIZE) :
    CalculatePhysicalDiscPosition m = WII_DVD_OUTER_RADIUS := by
  rw [← position_layer]
  exact position_congr (foldedOffset_congr_mod (by rw [h]; decide))

/-- C15 (calibration endpoints): when the 64-bit midpoint of the read is a multiple of `2 * L`
the read time is `length` divided by the inner speed of the disc kind; when the midpoint is
`L` modulo `2 * L` on a Wii disc it is `length` divided by the Wii outer speed. -/
theorem read_time_calibration_endpoints (offset length : Nat) (wii_disc : Bool) :
    (u64Add offset (length / 2) % (2 * WII_DISC_LAYER_SIZE) = 0 →
      CalculateRawDiscReadTime offset length wii_disc =
        (length : ℝ) / (if wii_disc then 1024 * 1024 * 3.48 else 1024 * 1024 * 2.1)) ∧
    (u64Add offset (length / 2) % (2 * WII_DISC_LAYER_SIZE) = WII_DISC_LAYER_SIZE →
      CalculateRawDiscReadTime offset length true = (length : ℝ) / (1024 * 1024 * 8.41)) := by
  constructor
  · intro h
    have hp : readPhysicalOffset offset length = 0.024 := by
      rw [readPhysicalOffset, position_of_mod_zero h, DVD_INNER_RADIUS]
    cases wii_disc
    · rw [CalculateRawDiscReadTime, readSpeed_gc_eq, hp]
      norm_num
    · rw [CalculateRawDiscReadTime, readSpeed_wii_eq, hp]
      norm_num
  · intro h
    have hp : readPhysicalOffset offset length = 0.058 := by
      rw [readPhysicalOffset, position_of_mod_layer h, WII_DVD_OUTER_RADIUS]
    rw [CalculateRawDiscReadTime, readSpeed_wii_eq, hp]
    norm_num

theorem read_time_calibration_endpoints_witness :
    CalculateRawDiscReadTime (2 * WII_DISC_LAYER_SIZE - 2048) 4096 false =
      ((4096 : Nat) : ℝ) / (1024 * 1024 * 2.1) ∧
    CalculateRawDiscReadTime (WII_DISC_LAYER_SIZE - 1024) 2048 true =
      ((2048 : Nat) : ℝ) / (1024 * 1024 * 8.41) :=
  ⟨(read_time_calibration_endpoints (2 * WII_DISC_LAYER_SIZE - 2048) 4096 false).1 (by decide),
    (read_time_calibration_endpoints (WII_DISC_LAYER_SIZE - 1024) 2048 true).2 (by decide)⟩

/-! ## Physical position: the second layer and the fold -/

/-- C16 (second-layer monotonicity): for offsets `o1 < o2` of the second layer,
`L ≤ o1` and `o2 < 2 * L`, the physical position of `o1` is at least that of `o2`. -/
theorem physical_position_second_layer (o1 o2 : Nat) (h1 : WII_DISC_LAYER_SIZE ≤ o1)
    (h12 : o1 < o2) (h2 : o2 < 2 * WII_DISC_LAYER_SIZE) :
    CalculatePhysicalDiscPosition o1 ≥ CalculatePhysicalDiscPosition o2 := by
  apply position_le_of_folded_le
  have hL : WII_DISC_LAYER_SIZE = 4699979776 := by decide
  rw [hL] at h1 h2
  rw [foldedOffset_eq, foldedOffset_eq]
  split <;> split <;> omega

theorem physical_position_second_layer_witness :
    CalculatePhysicalDiscPosition WII_DISC_LAYER_SIZE ≥
      CalculatePhysicalDiscPosition (2 * WII_DISC_LAYER_SIZE - 1) :=
  physical_position_second_layer WII_DISC_LAYER_SIZE (2 * WII_DISC_LAYER_SIZE - 1)
    (by decide) (by decide) (by decide)

/-- C17 (the fold is safe): twice the layer size fits in 64 bits, so the product does not
wrap; the reduced offset is below `2 * L`, so the mirror subtraction does not wrap either and
equals the difference taken in the integers; the folded offset is the exact integer fold of
the reduced offset, and lies between 0 and `L`. -/
theorem fold_is_safe (offset : Nat) :
    WII_DISC_LAYER_SIZE * 2 < U64_SIZE ∧
    u64Mul WII_DISC_LAYER_SIZE 2 = WII_DISC_LAYER_SIZE * 2 ∧
    offset % (WII_DISC_LAYER_SIZE * 2) < WII_DISC_LAYER_SIZE * 2 ∧
    ((u64Sub (u64Mul WII_DISC_LAYER_SIZE 2) (offset % (WII_DISC_LAYER_SIZE * 2)) : Nat) : ℤ) =
      (WII_DISC_LAYER_SIZE : ℤ) * 2 - ((offset % (WII_DISC_LAYER_SIZE * 2) : Nat) : ℤ) ∧
    ((foldedOffset offset : Nat) : ℤ) =
      (if WII_DISC_LAYER_SIZE < offset % (WII_DISC_LAYER_SIZE * 2) then
        (WII_DISC_LAYER_SIZE : ℤ) * 2 - ((offset % (WII_DISC_LAYER_SIZE * 2) : Nat) : ℤ)
      else ((offset % (WII_DISC_LAYER_SIZE * 2) : Nat) : ℤ)) ∧
    0 ≤ foldedOffset offset ∧ foldedOffset offset ≤ WII_DISC_LAYER_SIZE := by
  have hL : WII_DISC_LAYER_SIZE = 4699979776 := by decide
  have hlt : offset % 9399959552 < 9399959552 := Nat.mod_lt _ (by norm_num)
  refine ⟨by decide, by decide, ?_, ?_, ?_, Nat.zero_le _, foldedOffset_le offset⟩
  · rw [hL]
    exact hlt
  · rw [u64Mul_layer_two, hL]
    simp only [u64Sub, U64_SIZE]
    omega
  · rw [foldedOffset_eq, hL]
    split <;> omega

/-! ## Read time: scaling -/

theorem readSpeed_mono {o1 l1 o2 l2 : Nat} (wii_disc : Bool)
    (h : readPhysicalOffset o1 l1 ≤ readPhysicalOffset o2 l2) :
    readSpeed o1 l1 wii_disc ≤ readSpeed o2 l2 wii_disc := by
  cases wii_disc
  · rw [readSpeed_gc_eq, readSpeed_gc_eq]
    linarith
  · rw [readSpeed_wii_eq, readSpeed_wii_eq]
    linarith

theorem readSpeed_congr {o1 l1 o2 l2 : Nat} (wii_disc : Bool)
    (h : readPhysicalOffset o1 l1 = readPhysicalOffset o2 l2) :
    readSpeed o1 l1 wii_disc = readSpeed o2 l2 wii_disc :=
  le_antisymm (readSpeed_mono wii_disc h.le) (readSpeed_mono wii_disc h.ge)

theorem readPhysicalOffset_of_lt {offset length : Nat} (h : offset + length / 2 < U64_SIZE) :
    readPhysicalOffset offset length = CalculatePhysicalDiscPosition (offset + length / 2) := by
  rw [readPhysicalOffset, u64Add_of_lt h]

theorem layer_size_lt_u64 : WII_DISC_LAYER_SIZE < U64_SIZE := by
  decide

/-- C18 (read-time scaling): on the first layer, `offset + n ≤ L`, reading `2 * n` bytes takes
at most twice the time of reading `n` bytes from the same offset, and exactly twice that time
when the two sampled positions coincide. -/
theorem read_time_scaling (offset n : Nat) (wii_disc : Bool)
    (h : offset + n ≤ WII_DISC_LAYER_SIZE) :
    CalculateRawDiscReadTime offset (2 * n) wii_disc ≤
      2 * CalculateRawDiscReadTime offset n wii_disc ∧
    (CalculatePhysicalDiscPosition (offset + n) = CalculatePhysicalDiscPosition (offset + n / 2) →
      CalculateRawDiscReadTime offset (2 * n) wii_disc =
        2 * CalculateRawDiscReadTime offset n wii_disc) := by
  have hhalf : 2 * n / 2 = n := Nat.mul_div_cancel_left n (by norm_num)
  have hn2 : n / 2 ≤ n := Nat.div_le_self n 2
  have hbig : offset + 2 * n / 2 < U64_SIZE := by
    rw [hhalf]
    exact lt_of_le_of_lt h layer_size_lt_u64
  have hsmall : offset + n / 2 < U64_SIZE :=
    lt_of_le_of_lt (Nat.add_le_add_left hn2 offset) (lt_of_le_of_lt h layer_size_lt_u64)
  have hpbig : readPhysicalOffset offset (2 * n) = CalculatePhysicalDiscPosition (offset + n) := by
    rw [readPhysicalOffset_of_lt hbig, hhalf]
  have hpsmall : readPhysicalOffset offset n =
      CalculatePhysicalDiscPosition (offset + n / 2) :=
    readPhysicalOffset_of_lt hsmall
  have hple : readPhysicalOffset offset n ≤ readPhysicalOffset offset (2 * n) := by
    rw [hpbig, hpsmall]
    apply position_le_of_folded_le
    rw [foldedOffset_of_le h, foldedOffset_of_le (le_trans (Nat.add_le_add_left hn2 offset) h)]
    exact Nat.add_le_add_left hn2 offset
  have hcast : ((2 * n : Nat) : ℝ) = 2 * (n : ℝ) := by push_cast; ring
  have hn0 : (0 : ℝ) ≤ 2 * (n : ℝ) := by positivity
  constructor
  · rw [CalculateRawDiscReadTime, CalculateRawDiscReadTime, hcast, ← mul_div_assoc]
    exact div_le_div_of_nonneg_left hn0 (readSpeed_pos offset n wii_disc)
      (readSpeed_mono wii_disc hple)
  · intro heq
    have hpe : readPhysicalOffset offset (2 * n) = readPhysicalOffset offset n := by
      rw [hpbig, hpsmall, heq]
    rw [CalculateRawDiscReadTime, CalculateRawDiscReadTime, hcast, ← mul_div_assoc,
      readSpeed_congr wii_disc hpe]

theorem read_time_scaling_witness :
    CalculateRawDiscReadTime 2048 (2 * 4096) true ≤ 2 * CalculateRawDiscReadTime 2048 4096 true ∧
    CalculateRawDiscReadTime 2048 (2 * 0) false = 2 * CalculateRawDiscReadTime 2048 0 false :=
  ⟨(read_time_scaling 2048 4096 true (by decide)).1,
    (read_time_scaling 2048 0 false (by decide)).2 rfl⟩

/-! ## Rounding to binary64 -/

theorem roundTiesEven_ge_floor (y : ℝ) : ⌊y⌋ ≤ roundTiesEven y := by
  unfold roundTiesEven
  split_ifs <;> omega

theorem roundTiesEven_le_floor_succ (y : ℝ) : roundTiesEven y ≤ ⌊y⌋ + 1 := by
  unfold roundTiesEven
  split_ifs <;> omega

theorem roundTiesEven_mono {y z : ℝ} (h : y ≤ z) : roundTiesEven y ≤ roundTiesEven z := by
  have hf : ⌊y⌋ ≤ ⌊z⌋ := Int.floor_le_floor h
  rcases hf.lt_or_eq with hlt | heq
  · calc roundTiesEven y ≤ ⌊y⌋ + 1 := roundTiesEven_le_floor_succ y
      _ ≤ ⌊z⌋ := hlt
      _ ≤ roundTiesEven z := roundTiesEven_ge_floor z
  · have hfr : y - ⌊y⌋ ≤ z - ⌊z⌋ := by rw [heq]; linarith
    unfold roundTiesEven
    rw [heq]
    rw [heq] at hfr
    split_ifs <;> first | omega | (exfalso; linarith)

theorem roundTiesEven_intCast (m : ℤ) : roundTiesEven (m : ℝ) = m := by
  unfold roundTiesEven
  rw [Int.floor_intCast, sub_self, if_pos (by norm_num)]

theorem roundTiesEven_of_abs_lt {y : ℝ} (m : ℤ) (h : |y - m| < 1 / 2) :
    roundTiesEven y = m := by
  rw [abs_lt] at h
  obtain ⟨h1, h2⟩ := h
  by_cases hy : (m : ℝ) ≤ y
  · have hf : ⌊y⌋ = m := Int.floor_eq_iff.mpr ⟨hy, by linarith⟩
    unfold roundTiesEven
    rw [hf, if_pos (by linarith)]
  · have hf : ⌊y⌋ = m - 1 := Int.floor_eq_iff.mpr ⟨by push_cast; linarith, by push_cast; linarith⟩
    unfold roundTiesEven
    rw [hf, if_neg (by push_cast; linarith), if_pos (by push_cast; linarith)]
    ring

theorem roundTiesEven_tie_odd {y : ℝ} (n : ℤ) (hn : n % 2 = 1) (h : y = n + 1 / 2) :
    roundTiesEven y = n + 1 := by
  have hf : ⌊y⌋ = n := Int.floor_eq_iff.mpr ⟨by linarith, by linarith⟩
  unfold roundTiesEven
  rw [hf, if_neg (by linarith), if_neg (by linarith), if_neg (by omega)]

theorem roundTiesEven_tie_even {y : ℝ} (n : ℤ) (hn : n % 2 = 0) (h : y = n + 1 / 2) :
    roundTiesEven y = n := by
  have hf : ⌊y⌋ = n := Int.floor_eq_iff.mpr ⟨by linarith, by linarith⟩
  unfold roundTiesEven
  rw [hf, if_neg (by linarith), if_neg (by linarith), if_pos hn]


theorem log_eq_of_binade {x : ℝ} {e : ℤ} (h1 : (2 : ℝ) ^ e ≤ x) (h2 : x < (2 : ℝ) ^ (e + 1)) :
    Int.log 2 x = e := by
  have hx : 0 < x := lt_of_lt_of_le (zpow_pos (by norm_num) e) h1
  have hb : (1 : ℕ) < 2 := by norm_num
  apply le_antisymm
  · have h := (Int.lt_zpow_iff_log_lt hb hx).mp (by rw [Nat.cast_ofNat]; exact h2)
    omega
  · exact (Int.zpow_le_iff_le_log hb hx).mp (by rw [Nat.cast_ofNat]; exact h1)

theorem binade_of_pos {x : ℝ} (hx : 0 < x) :
    (2 : ℝ) ^ Int.log 2 x ≤ x ∧ x < (2 : ℝ) ^ (Int.log 2 x + 1) := by
  have hb : (1 : ℕ) < 2 := by norm_num
  have h1 := Int.zpow_log_le_self hb hx
  have h2 := Int.lt_zpow_succ_log_self hb x
  rw [Nat.cast_ofNat] at h1 h2
  exact ⟨h1, h2⟩

theorem f64RoundPos_eq {x : ℝ} (e m : ℤ) (h1 : (2 : ℝ) ^ e ≤ x) (h2 : x < (2 : ℝ) ^ (e + 1))
    (hm : roundTiesEven (x / 2 ^ (e - 52)) = m) :
    f64RoundPos x = (m : ℝ) * 2 ^ (e - 52) := by
  unfold f64RoundPos
  rw [log_eq_of_binade h1 h2, hm]

theorem scaled_bounds {x : ℝ} {e : ℤ} (h1 : (2 : ℝ) ^ e ≤ x) (h2 : x < (2 : ℝ) ^ (e + 1)) :
    (2 : ℝ) ^ (52 : ℕ) ≤ x / 2 ^ (e - 52) ∧ x / 2 ^ (e - 52) < (2 : ℝ) ^ (53 : ℕ) := by
  have hu : (0 : ℝ) < 2 ^ (e - 52) := zpow_pos (by norm_num) _
  have e1 : (2 : ℝ) ^ (52 : ℕ) * 2 ^ (e - 52) = 2 ^ e := by
    rw [← zpow_natCast, ← zpow_add₀ (by norm_num)]
    congr 1
    omega
  have e2 : (2 : ℝ) ^ (53 : ℕ) * 2 ^ (e - 52) = 2 ^ (e + 1) := by
    rw [← zpow_natCast, ← zpow_add₀ (by norm_num)]
    congr 1
    omega
  constructor
  · rw [le_div_iff₀ hu, e1]
    exact h1
  · rw [div_lt_iff₀ hu, e2]
    exact h2


theorem roundTiesEven_scaled_bounds {x : ℝ} {e : ℤ} (h1 : (2 : ℝ) ^ e ≤ x)
    (h2 : x < (2 : ℝ) ^ (e + 1)) :
    (2 : ℤ) ^ (52 : ℕ) ≤ roundTiesEven (x / 2 ^ (e - 52)) ∧
    roundTiesEven (x / 2 ^ (e - 52)) ≤ (2 : ℤ) ^ (53 : ℕ) := by
  obtain ⟨hlo, hhi⟩ := scaled_bounds h1 h2
  have hc52 : (((2 : ℤ) ^ (52 : ℕ) : ℤ) : ℝ) = (2 : ℝ) ^ (52 : ℕ) := by norm_cast
  have hc53 : (((2 : ℤ) ^ (53 : ℕ) : ℤ) : ℝ) = (2 : ℝ) ^ (53 : ℕ) := by norm_cast
  constructor
  · have h : roundTiesEven (((2 : ℤ) ^ (52 : ℕ) : ℤ) : ℝ) ≤ roundTiesEven (x / 2 ^ (e - 52)) :=
      roundTiesEven_mono (by rw [hc52]; exact hlo)
    rwa [roundTiesEven_intCast] at h
  · have h : roundTiesEven (x / 2 ^ (e - 52)) ≤ roundTiesEven (((2 : ℤ) ^ (53 : ℕ) : ℤ) : ℝ) :=
      roundTiesEven_mono (by rw [hc53]; exact hhi.le)
    rwa [roundTiesEven_intCast] at h

theorem f64RoundPos_binade {x : ℝ} {e : ℤ} (h1 : (2 : ℝ) ^ e ≤ x) (h2 : x < (2 : ℝ) ^ (e + 1)) :
    (2 : ℝ) ^ e ≤ f64RoundPos x ∧ f64RoundPos x ≤ (2 : ℝ) ^ (e + 1) := by
  obtain ⟨hlo, hhi⟩ := roundTiesEven_scaled_bounds h1 h2
  have hu : (0 : ℝ) < 2 ^ (e - 52) := zpow_pos (by norm_num) _
  have e1 : (2 : ℝ) ^ (52 : ℕ) * 2 ^ (e - 52) = 2 ^ e := by
    rw [← zpow_natCast, ← zpow_add₀ (by norm_num)]
    congr 1
    omega
  have e2 : (2 : ℝ) ^ (53 : ℕ) * 2 ^ (e - 52) = 2 ^ (e + 1) := by
    rw [← zpow_natCast, ← zpow_add₀ (by norm_num)]
    congr 1
    omega
  rw [f64RoundPos_eq e _ h1 h2 rfl]
  have hlo2 : (2 : ℝ) ^ (52 : ℕ) ≤ (roundTiesEven (x / 2 ^ (e - 52)) : ℝ) := by exact_mod_cast hlo
  have hhi2 : (roundTiesEven (x / 2 ^ (e - 52)) : ℝ) ≤ (2 : ℝ) ^ (53 : ℕ) := by exact_mod_cast hhi
  constructor
  · rw [← e1]
    exact mul_le_mul_of_nonneg_right hlo2 hu.le
  · rw [← e2]
    exact mul_le_mul_of_nonneg_right hhi2 hu.le

theorem f64RoundPos_pos {x : ℝ} (hx : 0 < x) : 0 < f64RoundPos x := by
  obtain ⟨h1, h2⟩ := binade_of_pos hx
  exact lt_of_lt_of_le (zpow_pos (by norm_num) _) (f64RoundPos_binade h1 h2).1

theorem f64RoundPos_mono {x y : ℝ} (hx : 0 < x) (h : x ≤ y) : f64RoundPos x ≤ f64RoundPos y := by
  have hy : 0 < y := lt_of_lt_of_le hx h
  obtain ⟨hx1, hx2⟩ := binade_of_pos hx
  obtain ⟨hy1, hy2⟩ := binade_of_pos hy
  have hle : Int.log 2 x ≤ Int.log 2 y := Int.log_mono_right hx h
  rcases hle.lt_or_eq with hlt | heq
  · calc f64RoundPos x ≤ (2 : ℝ) ^ (Int.log 2 x + 1) := (f64RoundPos_binade hx1 hx2).2
      _ ≤ (2 : ℝ) ^ Int.log 2 y := zpow_le_zpow_right₀ (by norm_num) (by omega)
      _ ≤ f64RoundPos y := (f64RoundPos_binade hy1 hy2).1
  · unfold f64RoundPos
    rw [heq]
    have hu : (0 : ℝ) < 2 ^ (Int.log 2 y - 52) := zpow_pos (by norm_num) _
    have hr := roundTiesEven_mono (div_le_div_of_nonneg_right h hu.le)
    have hr2 : (roundTiesEven (x / 2 ^ (Int.log 2 y - 52)) : ℝ) ≤
        (roundTiesEven (y / 2 ^ (Int.log 2 y - 52)) : ℝ) := by exact_mod_cast hr
    exact mul_le_mul_of_nonneg_right hr2 hu.le

theorem f64Round_zero : f64Round 0 = 0 := by
  simp [f64Round]

theorem f64Round_of_pos {x : ℝ} (hx : 0 < x) : f64Round x = f64RoundPos x := by
  rw [f64Round, if_pos hx]

theorem f64Round_of_neg {x : ℝ} (hx : x < 0) : f64Round x = -f64RoundPos (-x) := by
  rw [f64Round, if_neg (not_lt.mpr hx.le), if_pos hx]

theorem f64Round_neg (x : ℝ) : f64Round (-x) = -f64Round x := by
  rcases lt_trichotomy x 0 with h | h | h
  · rw [f64Round_of_neg h, f64Round_of_pos (neg_pos.mpr h), neg_neg]
  · rw [h, neg_zero, f64Round_zero, neg_zero]
  · rw [f64Round_of_pos h, f64Round_of_neg (neg_neg_of_pos h), neg_neg]

theorem f64Round_nonneg {x : ℝ} (hx : 0 ≤ x) : 0 ≤ f64Round x := by
  rcases hx.lt_or_eq with h | h
  · rw [f64Round_of_pos h]
    exact (f64RoundPos_pos h).le
  · rw [← h, f64Round_zero]

theorem f64Round_mono {x y : ℝ} (h : x ≤ y) : f64Round x ≤ f64Round y := by
  rcases lt_trichotomy 0 x with hx | hx | hx
  · rw [f64Round_of_pos hx, f64Round_of_pos (lt_of_lt_of_le hx h)]
    exact f64RoundPos_mono hx h
  · rw [← hx, f64Round_zero]
    exact f64Round_nonneg (hx ▸ h)
  · rcases lt_or_le y 0 with hy | hy
    · rw [f64Round_of_neg hx, f64Round_of_neg hy]
      exact neg_le_neg (f64RoundPos_mono (neg_pos.mpr hy) (neg_le_neg h))
    · have h1 : f64Round x ≤ 0 := by
        rw [f64Round_of_neg hx]
        exact neg_nonpos.mpr (f64RoundPos_pos (neg_pos.mpr hx)).le
      exact le_trans h1 (f64Round_nonneg hy)

theorem f64Round_abs (x : ℝ) : |f64Round x| = f64Round |x| := by
  rcases le_or_lt 0 x with h | h
  · rw [abs_of_nonneg h, abs_of_nonneg (f64Round_nonneg h)]
  · have h2 : f64Round x ≤ 0 := by
      have := f64Round_mono h.le
      rwa [f64Round_zero] at this
    rw [abs_of_neg h, abs_of_nonpos h2, f64Round_neg]

/-- Evaluation of a rounding whose scaled argument is within half a unit of `m`. -/
theorem f64Round_eq_near {x : ℝ} (e m : ℤ) (h1 : (2 : ℝ) ^ e ≤ x) (h2 : x < (2 : ℝ) ^ (e + 1))
    (h : |x / 2 ^ (e - 52) - m| < 1 / 2) : f64Round x = (m : ℝ) * 2 ^ (e - 52) := by
  have hx : 0 < x := lt_of_lt_of_le (zpow_pos (by norm_num) e) h1
  rw [f64Round_of_pos hx]
  exact f64RoundPos_eq e m h1 h2 (roundTiesEven_of_abs_lt m h)

/-- Evaluation of a rounding whose scaled argument lies half-way above the odd integer `n`. -/
theorem f64Round_eq_tie_odd {x : ℝ} (e n : ℤ) (h1 : (2 : ℝ) ^ e ≤ x)
    (h2 : x < (2 : ℝ) ^ (e + 1)) (hn : n % 2 = 1) (h : x / 2 ^ (e - 52) = n + 1 / 2) :
    f64Round x = ((n + 1 : ℤ) : ℝ) * 2 ^ (e - 52) := by
  have hx : 0 < x := lt_of_lt_of_le (zpow_pos (by norm_num) e) h1
  rw [f64Round_of_pos hx]
  exact f64RoundPos_eq e (n + 1) h1 h2 (roundTiesEven_tie_odd n hn h)

/-- A value with a 53-bit mantissa is not changed by rounding. -/
theorem f64Round_exact (m k : ℤ) (hm1 : (2 : ℤ) ^ (52 : ℕ) ≤ m) (hm2 : m < (2 : ℤ) ^ (53 : ℕ)) :
    f64Round ((m : ℝ) * 2 ^ k) = (m : ℝ) * 2 ^ k := by
  have hu : (0 : ℝ) < 2 ^ k := zpow_pos (by norm_num) _
  have hm1r : (2 : ℝ) ^ (52 : ℕ) ≤ (m : ℝ) := by exact_mod_cast hm1
  have hm2r : (m : ℝ) < (2 : ℝ) ^ (53 : ℕ) := by exact_mod_cast hm2
  have e1 : (2 : ℝ) ^ (52 : ℕ) * 2 ^ k = 2 ^ (k + 52) := by
    rw [← zpow_natCast, ← zpow_add₀ (by norm_num)]
    congr 1
    omega
  have e2 : (2 : ℝ) ^ (53 : ℕ) * 2 ^ k = 2 ^ (k + 52 + 1) := by
    rw [← zpow_natCast, ← zpow_add₀ (by norm_num)]
    congr 1
    omega
  have h1 : (2 : ℝ) ^ (k + 52) ≤ (m : ℝ) * 2 ^ k := by
    rw [← e1]
    exact mul_le_mul_of_nonneg_right hm1r hu.le
  have h2 : (m : ℝ) * 2 ^ k < (2 : ℝ) ^ (k + 52 + 1) := by
    rw [← e2]
    exact mul_lt_mul_of_pos_right hm2r hu
  have hk : k + 52 - 52 = k := by omega
  have h := f64Round_eq_near (k + 52) m h1 h2 (by
    rw [hk, mul_div_assoc, div_self hu.ne', mul_one, sub_self, abs_zero]
    norm_num)
  rw [hk] at h
  exact h

/-- Evaluation of a square root whose scaled value is within half a unit of `m`. -/
theorem f64Sqrt_eq_near {a : ℝ} (e m : ℤ) (hm : 1 ≤ m) (h1 : ((2 : ℝ) ^ e) ^ 2 ≤ a)
    (h2 : a < ((2 : ℝ) ^ (e + 1)) ^ 2)
    (hlo : ((((m : ℝ) - 1 / 2)) * 2 ^ (e - 52)) ^ 2 < a)
    (hhi : a < (((m : ℝ) + 1 / 2) * 2 ^ (e - 52)) ^ 2) :
    f64Sqrt a = (m : ℝ) * 2 ^ (e - 52) := by
  have hu : (0 : ℝ) < 2 ^ (e - 52) := zpow_pos (by norm_num) _
  have hmr : (1 : ℝ) ≤ (m : ℝ) := by exact_mod_cast hm
  have b1 : (2 : ℝ) ^ e ≤ Real.sqrt a := (Real.le_sqrt' (zpow_pos (by norm_num) e)).mpr h1
  have b2 : Real.sqrt a < (2 : ℝ) ^ (e + 1) := (Real.sqrt_lt' (zpow_pos (by norm_num) _)).mpr h2
  have b3 : ((m : ℝ) - 1 / 2) * 2 ^ (e - 52) < Real.sqrt a :=
    (Real.lt_sqrt (mul_nonneg (by linarith) hu.le)).mpr hlo
  have b4 : Real.sqrt a < ((m : ℝ) + 1 / 2) * 2 ^ (e - 52) :=
    (Real.sqrt_lt' (mul_pos (by linarith) hu)).mpr hhi
  unfold f64Sqrt
  apply f64Round_eq_near e m b1 b2
  rw [abs_lt]
  constructor
  · have := (lt_div_iff₀ hu).mpr b3
    linarith
  · have := (div_lt_iff₀ hu).mpr b4
    linarith

/-! ## The binary64 values along the computation at offsets 0 and `L` -/

theorem f64_inner_radius :
    f64Round DVD_INNER_RADIUS = 6917529027641082 * 2 ^ (-58 : ℤ) := by
  have h := f64Round_eq_near (x := DVD_INNER_RADIUS) (-6) 6917529027641082
    (by norm_num [DVD_INNER_RADIUS]) (by norm_num [DVD_INNER_RADIUS])
    (by rw [abs_lt]; constructor <;> norm_num [DVD_INNER_RADIUS])
  norm_num at h ⊢
  exact h

theorem f64_outer_radius :
    f64Round WII_DVD_OUTER_RADIUS = 8358680908399641 * 2 ^ (-57 : ℤ) := by
  have h := f64Round_eq_near (x := WII_DVD_OUTER_RADIUS) (-5) 8358680908399641
    (by norm_num [WII_DVD_OUTER_RADIUS]) (by norm_num [WII_DVD_OUTER_RADIUS])
    (by rw [abs_lt]; constructor <;> norm_num [WII_DVD_OUTER_RADIUS])
  norm_num at h ⊢
  exact h

theorem f64_outer_radius_sq :
    f64Mul (f64Round WII_DVD_OUTER_RADIUS) (f64Round WII_DVD_OUTER_RADIUS) =
      7756855882994867 * 2 ^ (-61 : ℤ) := by
  rw [f64Mul, f64_outer_radius]
  have h := f64Round_eq_near
    (x := 8358680908399641 * 2 ^ (-57 : ℤ) * (8358680908399641 * 2 ^ (-57 : ℤ))) (-9)
    7756855882994867 (by norm_num) (by norm_num) (by rw [abs_lt]; constructor <;> norm_num)
  norm_num at h ⊢
  exact h

theorem f64_inner_radius_sq :
    f64Mul (f64Round DVD_INNER_RADIUS) (f64Round DVD_INNER_RADIUS) =
      5312662293228351 * 2 ^ (-63 : ℤ) := by
  rw [f64Mul, f64_inner_radius]
  have h := f64Round_eq_near
    (x := 6917529027641082 * 2 ^ (-58 : ℤ) * (6917529027641082 * 2 ^ (-58 : ℤ))) (-11)
    5312662293228351 (by norm_num) (by norm_num) (by rw [abs_lt]; constructor <;> norm_num)
  norm_num at h ⊢
  exact h

theorem f64_radius_sq_diff :
    f64Sub (f64Mul (f64Round WII_DVD_OUTER_RADIUS) (f64Round WII_DVD_OUTER_RADIUS))
      (f64Mul (f64Round DVD_INNER_RADIUS) (f64Round DVD_INNER_RADIUS)) =
      6428690309687779 * 2 ^ (-61 : ℤ) := by
  rw [f64Sub, f64_outer_radius_sq, f64_inner_radius_sq]
  have h := f64Round_eq_near
    (x := 7756855882994867 * 2 ^ (-61 : ℤ) - 5312662293228351 * 2 ^ (-63 : ℤ)) (-9)
    6428690309687779 (by norm_num) (by norm_num) (by rw [abs_lt]; constructor <;> norm_num)
  norm_num at h ⊢
  exact h

theorem f64Round_one : f64Round 1 = 1 := by
  have h := f64Round_exact (2 ^ (52 : ℕ)) (-52) le_rfl (by norm_num)
  norm_num at h ⊢
  exact h

theorem f64OfNat_zero : f64OfNat 0 = 0 := by
  rw [f64OfNat, Nat.cast_zero, f64Round_zero]

theorem f64OfNat_layer : f64OfNat WII_DISC_LAYER_SIZE = 4699979776 := by
  have h := f64Round_exact (4699979776 * 2 ^ (20 : ℕ)) (-20) (by norm_num) (by norm_num)
  rw [f64OfNat]
  norm_num [WII_DISC_LAYER_SIZE] at h ⊢
  exact h

theorem f64Round_inner_radius_sq :
    f64Round (5312662293228351 * 2 ^ (-63 : ℤ)) = 5312662293228351 * 2 ^ (-63 : ℤ) := by
  have h := f64Round_exact 5312662293228351 (-63) (by norm_num) (by norm_num)
  norm_num at h ⊢
  exact h

theorem f64Round_radius_sq_diff :
    f64Round (6428690309687779 * 2 ^ (-61 : ℤ)) = 6428690309687779 * 2 ^ (-61 : ℤ) := by
  have h := f64Round_exact 6428690309687779 (-61) (by norm_num) (by norm_num)
  norm_num at h ⊢
  exact h

/-- The binary64 position with the constant subexpressions evaluated. -/
theorem positionF64_eq (offset : Nat) :
    CalculatePhysicalDiscPositionF64 offset =
      f64Sqrt (f64Round (f64Round (f64Round (f64OfNat (foldedOffset offset) / 4699979776) *
        (6428690309687779 * 2 ^ (-61 : ℤ))) + 5312662293228351 * 2 ^ (-63 : ℤ))) := by
  rw [CalculatePhysicalDiscPositionF64, f64_radius_sq_diff, f64_inner_radius_sq, f64OfNat_layer,
    f64Add, f64Mul, f64Div]

theorem positionF64_zero :
    CalculatePhysicalDiscPositionF64 0 = 6917529027641082 * 2 ^ (-58 : ℤ) := by
  have hf : foldedOffset 0 = 0 := by decide
  rw [positionF64_eq, hf, f64OfNat_zero, zero_div, f64Round_zero, zero_mul, f64Round_zero,
    zero_add, f64Round_inner_radius_sq]
  have h := f64Sqrt_eq_near (a := 5312662293228351 * 2 ^ (-63 : ℤ)) (-6) 6917529027641082
    (by norm_num) (by norm_num) (by norm_num) (by norm_num) (by norm_num)
  norm_num at h ⊢
  exact h

theorem positionF64_layer :
    CalculatePhysicalDiscPositionF64 WII_DISC_LAYER_SIZE = 8358680908399641 * 2 ^ (-57 : ℤ) := by
  have hf : foldedOffset WII_DISC_LAYER_SIZE = WII_DISC_LAYER_SIZE := by decide
  have hsum : f64Round (6428690309687779 * 2 ^ (-61 : ℤ) + 5312662293228351 * 2 ^ (-63 : ℤ)) =
      7756855882994867 * 2 ^ (-61 : ℤ) := by
    have h := f64Round_eq_near
      (x := 6428690309687779 * 2 ^ (-61 : ℤ) + 5312662293228351 * 2 ^ (-63 : ℤ)) (-9)
      7756855882994867 (by norm_num) (by norm_num) (by rw [abs_lt]; constructor <;> norm_num)
    norm_num at h ⊢
    exact h
  rw [positionF64_eq, hf, f64OfNat_layer, div_self (by norm_num), f64Round_one, one_mul,
    f64Round_radius_sq_diff, hsum]
  have h := f64Sqrt_eq_near (a := 7756855882994867 * 2 ^ (-61 : ℤ)) (-5) 8358680908399641
    (by norm_num) (by norm_num) (by norm_num) (by norm_num) (by norm_num)
  norm_num at h ⊢
  exact h

theorem f64_short_seek_max_distance :
    f64Round SHORT_SEEK_MAX_DISTANCE = 4611686018427388 * 2 ^ (-62 : ℤ) := by
  have h := f64Round_eq_near (x := SHORT_SEEK_MAX_DISTANCE) (-10) 4611686018427388
    (by norm_num [SHORT_SEEK_MAX_DISTANCE]) (by norm_num [SHORT_SEEK_MAX_DISTANCE])
    (by rw [abs_lt]; constructor <;> norm_num [SHORT_SEEK_MAX_DISTANCE])
  norm_num at h ⊢
  exact h

theorem f64_short_seek_constant :
    f64Round SHORT_SEEK_CONSTANT = 6485183463413514 * 2 ^ (-57 : ℤ) := by
  have h := f64Round_eq_near (x := SHORT_SEEK_CONSTANT) (-5) 6485183463413514
    (by norm_num [SHORT_SEEK_CONSTANT]) (by norm_num [SHORT_SEEK_CONSTANT])
    (by rw [abs_lt]; constructor <;> norm_num [SHORT_SEEK_CONSTANT])
  norm_num at h ⊢
  exact h

theorem f64_long_seek_constant :
    f64Round LONG_SEEK_CONSTANT = 6124895493223875 * 2 ^ (-56 : ℤ) := by
  have h := f64Round_eq_near (x := LONG_SEEK_CONSTANT) (-4) 6124895493223875
    (by norm_num [LONG_SEEK_CONSTANT]) (by norm_num [LONG_SEEK_CONSTANT])
    (by rw [abs_lt]; constructor <;> norm_num [LONG_SEEK_CONSTANT])
  norm_num at h ⊢
  exact h

theorem f64_short_seek_velocity_inverse : f64Round SHORT_SEEK_VELOCITY_INVERSE = 50 := by
  have h := f64Round_exact (25 * 2 ^ (48 : ℕ)) (-47) (by norm_num) (by norm_num)
  norm_num [SHORT_SEEK_VELOCITY_INVERSE] at h ⊢
  exact h

theorem f64_long_seek_velocity_inverse : f64Round LONG_SEEK_VELOCITY_INVERSE = 4.5 := by
  have h := f64Round_exact (9 * 2 ^ (49 : ℕ)) (-50) (by norm_num) (by norm_num)
  norm_num [LONG_SEEK_VELOCITY_INVERSE] at h ⊢
  exact h

/-- The largest distance: the rounded difference of the outer and the inner radius. -/
theorem f64_max_distance :
    f64Round (8358680908399641 * 2 ^ (-57 : ℤ) - 6917529027641082 * 2 ^ (-58 : ℤ)) =
      4899916394579100 * 2 ^ (-57 : ℤ) := by
  have h := f64Round_exact 4899916394579100 (-57) (by norm_num) (by norm_num)
  norm_num at h ⊢
  exact h

/-- The long-seek formula at the largest distance: both roundings are ties. -/
theorem f64_long_seek_max :
    f64Round (f64Round (4899916394579100 * 2 ^ (-57 : ℤ) * 4.5) +
      6124895493223875 * 2 ^ (-56 : ℤ)) = 8574853690513426 * 2 ^ (-55 : ℤ) := by
  have hp : f64Round (4899916394579100 * 2 ^ (-57 : ℤ) * 4.5) =
      5512405943901488 * 2 ^ (-55 : ℤ) := by
    have h := f64Round_eq_tie_odd (x := 4899916394579100 * 2 ^ (-57 : ℤ) * 4.5) (-3)
      5512405943901487 (by norm_num) (by norm_num) (by norm_num) (by norm_num)
    norm_num at h ⊢
    exact h
  rw [hp]
  have h := f64Round_eq_tie_odd
    (x := 5512405943901488 * 2 ^ (-55 : ℤ) + 6124895493223875 * 2 ^ (-56 : ℤ)) (-3)
    8574853690513425 (by norm_num) (by norm_num) (by norm_num) (by norm_num)
  norm_num at h ⊢
  exact h

theorem seekTimeF64_zero_layer :
    CalculateSeekTimeF64 0 WII_DISC_LAYER_SIZE = 8574853690513426 * 2 ^ (-55 : ℤ) := by
  have hd : |f64Sub (CalculatePhysicalDiscPositionF64 0)
      (CalculatePhysicalDiscPositionF64 WII_DISC_LAYER_SIZE)| =
      4899916394579100 * 2 ^ (-57 : ℤ) := by
    rw [f64Sub, f64Round_abs, positionF64_zero, positionF64_layer, abs_sub_comm,
      abs_of_nonneg (by norm_num), f64_max_distance]
  simp only [CalculateSeekTimeF64]
  rw [hd, f64_short_seek_max_distance, if_neg (by norm_num), f64Add, f64Mul,
    f64_long_seek_velocity_inverse, f64_long_seek_constant, f64_long_seek_max]

/-- C19, counterexample: in binary64 the seek from offset 0 to offset `L` takes
`8574853690513426 * 2 ^ (-55)` seconds, printed 0.23800000000000004, which is two units in the
last place above the `double` nearest to 0.238 and above the real number 0.238. -/
theorem seek_time_upper_bound_counterexample :
    CalculateSeekTimeF64 0 WII_DISC_LAYER_SIZE = 8574853690513426 * 2 ^ (-55 : ℤ) ∧
    f64Round 0.238 = 8574853690513424 * 2 ^ (-55 : ℤ) ∧
    ¬ (CalculateSeekTimeF64 0 WII_DISC_LAYER_SIZE ≤ f64Round 0.238) ∧
    ¬ (CalculateSeekTimeF64 0 WII_DISC_LAYER_SIZE ≤ 0.238) := by
  have hlit : f64Round 0.238 = 8574853690513424 * 2 ^ (-55 : ℤ) := by
    have h := f64Round_eq_near (x := 0.238) (-3) 8574853690513424
      (by norm_num) (by norm_num) (by rw [abs_lt]; constructor <;> norm_num)
    norm_num at h ⊢
    exact h
  refine ⟨seekTimeF64_zero_layer, hlit, ?_, ?_⟩
  · rw [seekTimeF64_zero_layer, hlit]
    norm_num
  · rw [seekTimeF64_zero_layer]
    norm_num

/-! ## Seek time in binary64: bounds -/

/-- A rounded value at least `2 ^ e0` is a multiple of `2 ^ (e0 - 52)`. -/
theorem f64Round_grid {x : ℝ} {e0 : ℤ} (hx : (2 : ℝ) ^ e0 ≤ x) :
    ∃ n : ℤ, f64Round x = (n : ℝ) * 2 ^ (e0 - 52) := by
  have hpos : 0 < x := lt_of_lt_of_le (zpow_pos (by norm_num) e0) hx
  have hb : (1 : ℕ) < 2 := by norm_num
  have hle : e0 ≤ Int.log 2 x :=
    (Int.zpow_le_iff_le_log hb hpos).mp (by rw [Nat.cast_ofNat]; exact hx)
  obtain ⟨d, hd⟩ := Int.eq_ofNat_of_zero_le (sub_nonneg.mpr hle)
  refine ⟨roundTiesEven (x / 2 ^ (Int.log 2 x - 52)) * 2 ^ d, ?_⟩
  have hsplit : (2 : ℝ) ^ (Int.log 2 x - 52) = 2 ^ d * 2 ^ (e0 - 52) := by
    rw [← zpow_natCast, ← zpow_add₀ (by norm_num)]
    congr 1
    omega
  rw [f64Round_of_pos hpos, f64RoundPos, hsplit]
  push_cast
  ring

theorem positionF64_radicand_mono {m n : Nat} (h : m ≤ n) :
    f64Round (f64Round (f64Round (f64OfNat m / 4699979776) *
        (6428690309687779 * 2 ^ (-61 : ℤ))) + 5312662293228351 * 2 ^ (-63 : ℤ)) ≤
      f64Round (f64Round (f64Round (f64OfNat n / 4699979776) *
        (6428690309687779 * 2 ^ (-61 : ℤ))) + 5312662293228351 * 2 ^ (-63 : ℤ)) := by
  have h1 : f64OfNat m ≤ f64OfNat n := f64Round_mono (Nat.cast_le.mpr h)
  have h2 := f64Round_mono (div_le_div_of_nonneg_right h1 (by norm_num : (0 : ℝ) ≤ 4699979776))
  have hK : (0 : ℝ) ≤ 6428690309687779 * 2 ^ (-61 : ℤ) := by norm_num
  have h3 := f64Round_mono (mul_le_mul_of_nonneg_right h2 hK)
  exact f64Round_mono (add_le_add_right h3 _)

theorem positionF64_mono {a b : Nat} (h : foldedOffset a ≤ foldedOffset b) :
    CalculatePhysicalDiscPositionF64 a ≤ CalculatePhysicalDiscPositionF64 b := by
  rw [positionF64_eq, positionF64_eq]
  exact f64Round_mono (Real.sqrt_le_sqrt (positionF64_radicand_mono h))

theorem positionF64_ge_inner (offset : Nat) :
    6917529027641082 * 2 ^ (-58 : ℤ) ≤ CalculatePhysicalDiscPositionF64 offset := by
  rw [← positionF64_zero]
  apply positionF64_mono
  have hf : foldedOffset 0 = 0 := by decide
  rw [hf]
  exact Nat.zero_le _

theorem positionF64_le_outer (offset : Nat) :
    CalculatePhysicalDiscPositionF64 offset ≤ 8358680908399641 * 2 ^ (-57 : ℤ) := by
  rw [← positionF64_layer]
  apply positionF64_mono
  have hf : foldedOffset WII_DISC_LAYER_SIZE = WII_DISC_LAYER_SIZE := by decide
  rw [hf]
  exact foldedOffset_le offset

/-- Every binary64 position is a multiple of `2 ^ (-58)`. -/
theorem positionF64_grid (offset : Nat) :
    ∃ n : ℤ, CalculatePhysicalDiscPositionF64 offset = (n : ℝ) * 2 ^ (-58 : ℤ) := by
  have hrad := positionF64_radicand_mono (Nat.zero_le (foldedOffset offset))
  rw [f64OfNat_zero, zero_div, f64Round_zero, zero_mul, f64Round_zero, zero_add,
    f64Round_inner_radius_sq] at hrad
  have hs : (2 : ℝ) ^ (-6 : ℤ) ≤ Real.sqrt (f64Round (f64Round
      (f64Round (f64OfNat (foldedOffset offset) / 4699979776) *
        (6428690309687779 * 2 ^ (-61 : ℤ))) + 5312662293228351 * 2 ^ (-63 : ℤ))) := by
    rw [Real.le_sqrt' (by norm_num)]
    refine le_trans ?_ hrad
    norm_num
  obtain ⟨n, hn⟩ := f64Round_grid hs
  refine ⟨n, ?_⟩
  rw [positionF64_eq, f64Sqrt, hn]
  norm_num

/-- Two different binary64 positions lie at least `2 ^ (-58)` apart. -/
theorem positionF64_separated {a b : Nat}
    (h : CalculatePhysicalDiscPositionF64 a ≠ CalculatePhysicalDiscPositionF64 b) :
    (2 : ℝ) ^ (-58 : ℤ) ≤
      |CalculatePhysicalDiscPositionF64 a - CalculatePhysicalDiscPositionF64 b| := by
  obtain ⟨na, ha⟩ := positionF64_grid a
  obtain ⟨nb, hb⟩ := positionF64_grid b
  have hne : na ≠ nb := by
    intro hEq
    apply h
    rw [ha, hb, hEq]
  have hint : (1 : ℤ) ≤ |na - nb| := Int.one_le_abs (sub_ne_zero.mpr hne)
  have hreal : (1 : ℝ) ≤ |(na : ℝ) - (nb : ℝ)| := by exact_mod_cast hint
  have hu : (0 : ℝ) < 2 ^ (-58 : ℤ) := zpow_pos (by norm_num) _
  rw [ha, hb, ← sub_mul, abs_mul, abs_of_pos hu]
  calc (2 : ℝ) ^ (-58 : ℤ) = 1 * 2 ^ (-58 : ℤ) := (one_mul _).symm
    _ ≤ |(na : ℝ) - (nb : ℝ)| * 2 ^ (-58 : ℤ) := mul_le_mul_of_nonneg_right hreal hu.le

/-- The binary64 seek time with the constants evaluated. -/
theorem seekTimeF64_eq (a b : Nat) :
    CalculateSeekTimeF64 a b =
      if f64Round |CalculatePhysicalDiscPositionF64 a - CalculatePhysicalDiscPositionF64 b| <
          4611686018427388 * 2 ^ (-62 : ℤ) then
        f64Round (f64Round (f64Round
          |CalculatePhysicalDiscPositionF64 a - CalculatePhysicalDiscPositionF64 b| * 50) +
          6485183463413514 * 2 ^ (-57 : ℤ))
      else
        f64Round (f64Round (f64Round
          |CalculatePhysicalDiscPositionF64 a - CalculatePhysicalDiscPositionF64 b| * 4.5) +
          6124895493223875 * 2 ^ (-56 : ℤ)) := by
  simp only [CalculateSeekTimeF64, f64Sub, f64Add, f64Mul, f64Round_abs,
    f64_short_seek_max_distance, f64_short_seek_velocity_inverse, f64_short_seek_constant,
    f64_long_seek_velocity_inverse, f64_long_seek_constant]

theorem seekDistanceF64_le (a b : Nat) :
    f64Round |CalculatePhysicalDiscPositionF64 a - CalculatePhysicalDiscPositionF64 b| ≤
      4899916394579100 * 2 ^ (-57 : ℤ) := by
  have ha1 := positionF64_ge_inner a
  have ha2 := positionF64_le_outer a
  have hb1 := positionF64_ge_inner b
  have hb2 := positionF64_le_outer b
  rw [← f64_max_distance]
  apply f64Round_mono
  rw [abs_le]
  constructor <;> linarith

theorem f64Round_short_seek_constant :
    f64Round (6485183463413514 * 2 ^ (-57 : ℤ)) = 6485183463413514 * 2 ^ (-57 : ℤ) := by
  have h := f64Round_exact 6485183463413514 (-57) (by norm_num) (by norm_num)
  norm_num at h ⊢
  exact h

theorem f64Round_long_seek_constant :
    f64Round (6124895493223875 * 2 ^ (-56 : ℤ)) = 6124895493223875 * 2 ^ (-56 : ℤ) := by
  have h := f64Round_exact 6124895493223875 (-56) (by norm_num) (by norm_num)
  norm_num at h ⊢
  exact h

/-- The short-seek formula stays below `3 / 16`. -/
theorem f64_short_seek_le {d : ℝ} (hd : d < 4611686018427388 * 2 ^ (-62 : ℤ)) :
    f64Round (f64Round (d * 50) + 6485183463413514 * 2 ^ (-57 : ℤ)) ≤ 3 / 16 := by
  have e1 : f64Round (1 / 8) = 1 / 8 := by
    have h := f64Round_exact (2 ^ (52 : ℕ)) (-55) le_rfl (by norm_num)
    norm_num at h ⊢
    exact h
  have e2 : f64Round (3 / 16) = 3 / 16 := by
    have h := f64Round_exact (3 * 2 ^ (51 : ℕ)) (-55) (by norm_num) (by norm_num)
    norm_num at h ⊢
    exact h
  have h1 : f64Round (d * 50) ≤ 1 / 8 := by
    have h := f64Round_mono (show d * 50 ≤ 1 / 8 by norm_num at hd; linarith)
    rwa [e1] at h
  have h2 := f64Round_mono
    (show f64Round (d * 50) + 6485183463413514 * 2 ^ (-57 : ℤ) ≤ 3 / 16 by
      have hc : (6485183463413514 : ℝ) * 2 ^ (-57 : ℤ) ≤ 1 / 16 := by norm_num
      linarith)
  rwa [e2] at h2

/-- The short-seek formula exceeds the short-seek constant once the distance is at least
`2 ^ (-58)`. -/
theorem f64_short_seek_gt {d : ℝ} (hd : (2 : ℝ) ^ (-58 : ℤ) ≤ d) :
    6485183463413514 * 2 ^ (-57 : ℤ) <
      f64Round (f64Round (d * 50) + 6485183463413514 * 2 ^ (-57 : ℤ)) := by
  have e1 : f64Round (2 ^ (-53 : ℤ)) = 2 ^ (-53 : ℤ) := by
    have h := f64Round_exact (2 ^ (52 : ℕ)) (-105) le_rfl (by norm_num)
    norm_num at h ⊢
    exact h
  have e2 : f64Round (6485183463413530 * 2 ^ (-57 : ℤ)) = 6485183463413530 * 2 ^ (-57 : ℤ) := by
    have h := f64Round_exact 6485183463413530 (-57) (by norm_num) (by norm_num)
    norm_num at h ⊢
    exact h
  have h1 : (2 : ℝ) ^ (-53 : ℤ) ≤ f64Round (d * 50) := by
    have h := f64Round_mono (show (2 : ℝ) ^ (-53 : ℤ) ≤ d * 50 by norm_num at hd ⊢; linarith)
    rwa [e1] at h
  have h2 := f64Round_mono
    (show (6485183463413530 : ℝ) * 2 ^ (-57 : ℤ) ≤
        f64Round (d * 50) + 6485183463413514 * 2 ^ (-57 : ℤ) by
      norm_num at h1 ⊢
      linarith)
  rw [e2] at h2
  refine lt_of_lt_of_le ?_ h2
  norm_num

/-- The bound `0.085 + 4.5 * (0.058 - 0.024)` evaluated in binary64. -/
theorem f64_bound_expression :
    f64Add (f64Round LONG_SEEK_CONSTANT) (f64Mul (f64Round LONG_SEEK_VELOCITY_INVERSE)
      (f64Sub (f64Round WII_DVD_OUTER_RADIUS) (f64Round DVD_INNER_RADIUS))) =
      8574853690513426 * 2 ^ (-55 : ℤ) := by
  rw [f64Add, f64Mul, f64Sub, f64_outer_radius, f64_inner_radius, f64_max_distance,
    f64_long_seek_velocity_inverse, f64_long_seek_constant, add_comm, mul_comm,
    f64_long_seek_max]

/-- C19, amended: in binary64 every seek time lies between the `double` 0.045 and
`8574853690513426 * 2 ^ (-55)`, printed 0.23800000000000004, which is the seek time at offsets
0 and `L` and the binary64 value of `0.085 + 4.5 * (0.058 - 0.024)`; the seek time equals the
`double` 0.045 exactly when the two binary64 positions are equal. -/
theorem seek_time_f64_bounds (a b : Nat) :
    f64Round SHORT_SEEK_CONSTANT ≤ CalculateSeekTimeF64 a b ∧
    CalculateSeekTimeF64 a b ≤ 8574853690513426 * 2 ^ (-55 : ℤ) ∧
    f64Add (f64Round LONG_SEEK_CONSTANT) (f64Mul (f64Round LONG_SEEK_VELOCITY_INVERSE)
      (f64Sub (f64Round WII_DVD_OUTER_RADIUS) (f64Round DVD_INNER_RADIUS))) =
      8574853690513426 * 2 ^ (-55 : ℤ) ∧
    (CalculateSeekTimeF64 a b = f64Round SHORT_SEEK_CONSTANT ↔
      CalculatePhysicalDiscPositionF64 a = CalculatePhysicalDiscPositionF64 b) := by
  suffices h : f64Round SHORT_SEEK_CONSTANT ≤ CalculateSeekTimeF64 a b ∧
      CalculateSeekTimeF64 a b ≤ 8574853690513426 * 2 ^ (-55 : ℤ) ∧
      (CalculateSeekTimeF64 a b = f64Round SHORT_SEEK_CONSTANT ↔
        CalculatePhysicalDiscPositionF64 a = CalculatePhysicalDiscPositionF64 b) from
    ⟨h.1, h.2.1, f64_bound_expression, h.2.2⟩
  have hd0 : 0 ≤ f64Round
      |CalculatePhysicalDiscPositionF64 a - CalculatePhysicalDiscPositionF64 b| :=
    f64Round_nonneg (abs_nonneg _)
  have hdmax := seekDistanceF64_le a b
  have hzero : CalculatePhysicalDiscPositionF64 a = CalculatePhysicalDiscPositionF64 b →
      f64Round |CalculatePhysicalDiscPositionF64 a - CalculatePhysicalDiscPositionF64 b| = 0 := by
    intro h
    rw [h, sub_self, abs_zero, f64Round_zero]
  have hsep : CalculatePhysicalDiscPositionF64 a ≠ CalculatePhysicalDiscPositionF64 b →
      (2 : ℝ) ^ (-58 : ℤ) ≤ f64Round
        |CalculatePhysicalDiscPositionF64 a - CalculatePhysicalDiscPositionF64 b| := by
    intro h
    have e : f64Round (2 ^ (-58 : ℤ)) = 2 ^ (-58 : ℤ) := by
      have h := f64Round_exact (2 ^ (52 : ℕ)) (-110) le_rfl (by norm_num)
      norm_num at h ⊢
      exact h
    have hm := f64Round_mono (positionF64_separated h)
    rwa [e] at hm
  rw [seekTimeF64_eq, f64_short_seek_constant]
  generalize f64Round
    |CalculatePhysicalDiscPositionF64 a - CalculatePhysicalDiscPositionF64 b| = d at *
  by_cases hs : d < 4611686018427388 * 2 ^ (-62 : ℤ)
  · rw [if_pos hs]
    have hlow : (6485183463413514 : ℝ) * 2 ^ (-57 : ℤ) ≤
        f64Round (f64Round (d * 50) + 6485183463413514 * 2 ^ (-57 : ℤ)) := by
      have h1 : 0 ≤ f64Round (d * 50) := f64Round_nonneg (mul_nonneg hd0 (by norm_num))
      have h2 := f64Round_mono (show (6485183463413514 : ℝ) * 2 ^ (-57 : ℤ) ≤
        f64Round (d * 50) + 6485183463413514 * 2 ^ (-57 : ℤ) by linarith)
      rwa [f64Round_short_seek_constant] at h2
    refine ⟨hlow, le_trans (f64_short_seek_le hs) (by norm_num), ?_⟩
    constructor
    · intro heq
      by_contra hne
      have hgt := f64_short_seek_gt (hsep hne)
      rw [heq] at hgt
      exact lt_irrefl _ hgt
    · intro hpp
      rw [hzero hpp, zero_mul, f64Round_zero, zero_add, f64Round_short_seek_constant]
  · rw [if_neg hs]
    have hlow : (6124895493223875 : ℝ) * 2 ^ (-56 : ℤ) ≤
        f64Round (f64Round (d * 4.5) + 6124895493223875 * 2 ^ (-56 : ℤ)) := by
      have h1 : 0 ≤ f64Round (d * 4.5) := f64Round_nonneg (mul_nonneg hd0 (by norm_num))
      have h2 := f64Round_mono (show (6124895493223875 : ℝ) * 2 ^ (-56 : ℤ) ≤
        f64Round (d * 4.5) + 6124895493223875 * 2 ^ (-56 : ℤ) by linarith)
      rwa [f64Round_long_seek_constant] at h2
    have hc : (6485183463413514 : ℝ) * 2 ^ (-57 : ℤ) < 6124895493223875 * 2 ^ (-56 : ℤ) := by
      norm_num
    have hup : f64Round (f64Round (d * 4.5) + 6124895493223875 * 2 ^ (-56 : ℤ)) ≤
        8574853690513426 * 2 ^ (-55 : ℤ) := by
      rw [← f64_long_seek_max]
      have h1 := f64Round_mono
        (mul_le_mul_of_nonneg_right hdmax (by norm_num : (0 : ℝ) ≤ 4.5))
      exact f64Round_mono (add_le_add_right h1 _)
    refine ⟨le_trans hc.le hlow, hup, ?_⟩
    constructor
    · intro heq
      rw [heq] at hlow
      exact absurd hlow (not_le.mpr hc)
    · intro hpp
      exfalso
      apply hs
      rw [hzero hpp]
      norm_num

end DVDMath
